import Mathlib

/-!
Verification of the statistical experiment-analysis engine of
`src/api/routers/experiments.py` (A/B-test analysis service).

The Python module computes over IEEE floats; this development models that
arithmetic over `ℝ`, with conversion/visitor counts as `ℕ` and Python ints
as `ℤ`.  Each definition mirrors one function of the source file; the doc
comments cite the source lines being embedded.
-/

open Real

/-- Gauss error function: the mathematical function computed by Python's
`math.erfc` (via `erfc x = 1 - erf x`), which the source calls at line 187. -/
noncomputable def erf (x : ℝ) : ℝ :=
  2 / Real.sqrt π * ∫ t in (0 : ℝ)..x, Real.exp (-t ^ 2)

/-- Complementary error function `math.erfc`. -/
noncomputable def erfc (x : ℝ) : ℝ := 1 - erf x

/-- Source `_norm_cdf` (lines 180–187): `Phi(x) = 0.5 * erfc(-x / sqrt(2))`. -/
noncomputable def normCdf (x : ℝ) : ℝ := 0.5 * erfc (-x / Real.sqrt 2)

/-- Pooled proportion `p_pool = (c_ctrl + c_var) / (n_ctrl + n_var)`
(source line 164). -/
noncomputable def pooledProp (cCtrl nCtrl cVar nVar : ℕ) : ℝ :=
  ((cCtrl : ℝ) + (cVar : ℝ)) / ((nCtrl : ℝ) + (nVar : ℝ))

/-- Pooled standard error `se = sqrt(p_pool * (1 - p_pool) * (1/n_ctrl + 1/n_var))`
(source line 169). -/
noncomputable def standardError (cCtrl nCtrl cVar nVar : ℕ) : ℝ :=
  Real.sqrt (pooledProp cCtrl nCtrl cVar nVar * (1 - pooledProp cCtrl nCtrl cVar nVar) *
    (1 / (nCtrl : ℝ) + 1 / (nVar : ℝ)))

/-- Source `_z_test_proportions` (lines 150–177): two-proportion two-tailed
z-test.  Degenerate guards (`n = 0`, `p_pool <= 0 or p_pool >= 1`, `se == 0`)
return `(0, 1)`; otherwise `z = (p_var - p_ctrl)/se` and
`p = 2*(1 - Phi(|z|))` clamped to `[0, 1]` by `max(0.0, min(1.0, p_value))`. -/
noncomputable def zTestProportions (cCtrl nCtrl cVar nVar : ℕ) : ℝ × ℝ :=
  if nCtrl = 0 ∨ nVar = 0 then (0, 1)
  else if pooledProp cCtrl nCtrl cVar nVar ≤ 0 ∨ 1 ≤ pooledProp cCtrl nCtrl cVar nVar then (0, 1)
  else if standardError cCtrl nCtrl cVar nVar = 0 then (0, 1)
  else
    let z := ((cVar : ℝ) / (nVar : ℝ) - (cCtrl : ℝ) / (nCtrl : ℝ)) /
      standardError cCtrl nCtrl cVar nVar
    (z, max 0 (min 1 (2 * (1 - normCdf |z|))))

/-- Relative uplift (source lines 89–92):
`(variant_rate - control_rate) / control_rate * 100.0` when `control_rate > 0`,
else `0.0`. -/
noncomputable def relativeUpliftPct (cCtrl nCtrl cVar nVar : ℕ) : ℝ :=
  if 0 < (cCtrl : ℝ) / (nCtrl : ℝ) then
    ((cVar : ℝ) / (nVar : ℝ) - (cCtrl : ℝ) / (nCtrl : ℝ)) / ((cCtrl : ℝ) / (nCtrl : ℝ)) * 100
  else 0

/-- Absolute uplift (source line 93): `(variant_rate - control_rate) * 100.0`. -/
noncomputable def absoluteUpliftPct (cCtrl nCtrl cVar nVar : ℕ) : ℝ :=
  ((cVar : ℝ) / (nVar : ℝ) - (cCtrl : ℝ) / (nCtrl : ℝ)) * 100

/-- Source `_norm_ppf` (lines 270–290): Beasley–Springer–Moro rational
approximation of the inverse standard-normal CDF.  The source first returns
`-inf` for `p <= 0` and `+inf` for `p >= 1`; `ℝ` has no infinities and every
call site of the source supplies `p ∈ (0, 1)` (the planner is only invoked
with `alpha = 1 - confidence_level ∈ [0.0001, 0.5]` and `power = 0.80`), so
the model covers exactly the rational-approximation branch. -/
noncomputable def normPpf (p : ℝ) : ℝ :=
  let q := if p < 0.5 then p else 1 - p
  let t := Real.sqrt (-2 * Real.log q)
  let num := 2.515517 + t * (0.802853 + t * 0.010328)
  let den := 1 + t * (1.432788 + t * (0.189269 + t * 0.001308))
  let x := t - num / den
  if 0.5 ≤ p then x else -x

/-- Source `_calculate_sample_size` (lines 231–267).  Returns a Python int,
modelled as `ℤ` (`math.ceil`). -/
noncomputable def calculateSampleSize (baselineRate minDetectableEffect alpha power : ℝ) : ℤ :=
  if baselineRate ≤ 0 ∨ 1 ≤ baselineRate then 0
  else
    let p1 := baselineRate
    let p2 := min (baselineRate * (1 + minDetectableEffect)) 0.9999
    let zAlpha := normPpf (1 - alpha / 2)
    let zBeta := normPpf power
    let numerator := (zAlpha + zBeta) ^ 2 * (p1 * (1 - p1) + p2 * (1 - p2))
    let denominator := (p1 - p2) ^ 2
    if denominator = 0 then 0 else ⌈numerator / denominator⌉

/-- Source `_make_recommendation` (lines 293–321): the decision policy.
`reached_sample = total_visitors >= sample_size_needed * 2` (line 309), and
the three `if` statements of lines 311–319 are tried in order. -/
noncomputable def makeRecommendation (isSignificant : Bool) (relUplift : ℝ)
    (totalVisitors : ℕ) (sampleSizeNeeded : ℤ) (probBBeatsA : ℝ) : String :=
  if isSignificant = true ∧ 2 ≤ |relUplift| then "declare_winner"
  else if isSignificant = true ∧ |relUplift| < 2 then "stop_test_no_winner"
  else if
    sampleSizeNeeded * 2 ≤ (totalVisitors : ℤ) ∧ (probBBeatsA < 0.10 ∨ 0.90 < probBBeatsA) then
    "stop_test_no_winner"
  else "continue_test"

/-- Seed of the numpy generator used by `_bayesian_analysis`: source line 214
is `rng = np.random.default_rng(seed=42)`.  The seed is a literal constant of
the function body; `_bayesian_analysis` has no seed/generator parameter, so
the seed used cannot depend on any argument.  This definition records the
seed used as a function of all the arguments the source function does take. -/
def bayesianSeedUsed (cCtrl nCtrl cVar nVar nSamples : ℕ) : ℕ := 42

/-- Default of the `n_samples` parameter of `_bayesian_analysis`
(source line 193: `n_samples: int = 100_000`). -/
def bayesianDefaultNSamples : ℕ := 100000

/-- Request model `ExperimentAnalyzeRequest` (source lines 24–31).  Pydantic
enforces `conversions ≥ 0`, `visitors ≥ 1`, `0.5 ≤ confidence_level ≤ 0.9999`
before the handler runs; counts are `ℕ` here and the visitor lower bounds
appear as hypotheses of the theorems. -/
structure ExperimentAnalyzeRequest where
  controlConversions : ℕ
  controlVisitors : ℕ
  variantConversions : ℕ
  variantVisitors : ℕ
  confidenceLevel : ℝ

/-- Sample count passed by `analyze_experiment` to `_bayesian_analysis`:
source line 110 is the keyword literal `n_samples=100_000`, independent of the
request. -/
def analyzeNSamples (req : ExperimentAnalyzeRequest) : ℕ := 100000

/-- Response model `FrequentistResult` (source lines 34–42). -/
structure FrequentistResult where
  zScore : ℝ
  pValue : ℝ
  isSignificant : Bool
  confidenceLevel : ℝ
  relativeUpliftPct : ℝ
  absoluteUpliftPct : ℝ
  controlRate : ℝ
  variantRate : ℝ

/-- Response model `BayesianResult` (source lines 45–48). -/
structure BayesianResult where
  probBBeatsA : ℝ
  expectedLoss : ℝ
  credibleInterval95 : ℝ × ℝ

/-- Response model `ExperimentAnalyzeResponse` (source lines 51–55). -/
structure ExperimentAnalyzeResponse where
  frequentist : FrequentistResult
  bayesian : BayesianResult
  recommendation : String
  sampleSizeNeeded : ℤ

/-- Banker's rounding to the nearest integer (ties go to the even integer):
the semantics of Python's built-in `round`. -/
noncomputable def roundHalfEven (x : ℝ) : ℤ :=
  if Int.fract x = 1 / 2 then 2 * round (x / 2) else round x

/-- Python's `round(x, d)` for reals. -/
noncomputable def roundTo (d : ℕ) (x : ℝ) : ℝ := (roundHalfEven (x * 10 ^ d) : ℝ) / 10 ^ d

/-- Body of `analyze_experiment` after validation (source lines 75–143).
The Bayesian Monte-Carlo outputs (lines 107–111: seeded numpy draws from the
two Beta posteriors, compared and aggregated in floating point) are
stochastic-simulation outputs with no shallow embedding; they enter the model
as the parameters `probBBeatsA`, `expectedLoss`, `ciLow`, `ciHigh`.  Every
other quantity is computed exactly as in the source, including the
`round(_, 4)` / `round(_, 6)` calls of lines 96–103 and 114–116. -/
noncomputable def analyzeCore (req : ExperimentAnalyzeRequest)
    (probBBeatsA expectedLoss ciLow ciHigh : ℝ) : ExperimentAnalyzeResponse :=
  let alpha := 1 - req.confidenceLevel
  let controlRate := (req.controlConversions : ℝ) / (req.controlVisitors : ℝ)
  let variantRate := (req.variantConversions : ℝ) / (req.variantVisitors : ℝ)
  let zp := zTestProportions req.controlConversions req.controlVisitors
    req.variantConversions req.variantVisitors
  let isSignificant := if zp.2 < alpha then true else false
  let relUplift := relativeUpliftPct req.controlConversions req.controlVisitors
    req.variantConversions req.variantVisitors
  let absUplift := absoluteUpliftPct req.controlConversions req.controlVisitors
    req.variantConversions req.variantVisitors
  let sampleSizeNeeded := calculateSampleSize controlRate 0.10 alpha 0.80
  let totalVisitors := req.controlVisitors + req.variantVisitors
  let recommendation :=
    makeRecommendation isSignificant relUplift totalVisitors sampleSizeNeeded probBBeatsA
  { frequentist :=
      { zScore := roundTo 4 zp.1
        pValue := roundTo 6 zp.2
        isSignificant := isSignificant
        confidenceLevel := req.confidenceLevel
        relativeUpliftPct := roundTo 4 relUplift
        absoluteUpliftPct := roundTo 4 absUplift
        controlRate := roundTo 6 controlRate
        variantRate := roundTo 6 variantRate }
    bayesian :=
      { probBBeatsA := roundTo 4 probBBeatsA
        expectedLoss := roundTo 6 expectedLoss
        credibleInterval95 := (roundTo 6 ciLow, roundTo 6 ciHigh) }
    recommendation := recommendation
    sampleSizeNeeded := sampleSizeNeeded }

/-- Source `analyze_experiment` (lines 62–143): the two validation guards of
lines 70–73 reject with an HTTP 400 client error before any statistical
computation; otherwise the analysis of `analyzeCore` is returned. -/
noncomputable def analyzeExperiment (req : ExperimentAnalyzeRequest)
    (probBBeatsA expectedLoss ciLow ciHigh : ℝ) : Except String ExperimentAnalyzeResponse :=
  if req.controlVisitors < req.controlConversions then
    .error "control_conversions cannot exceed control_visitors"
  else if req.variantVisitors < req.variantConversions then
    .error "variant_conversions cannot exceed variant_visitors"
  else .ok (analyzeCore req probBBeatsA expectedLoss ciLow ciHigh)

/-- Claim C1, counterexample.  At the concrete decision-policy input
`is_significant = true`, `relative_uplift_pct = 30`, `total_visitors = 1000`,
`sample_size_needed = 0`, `prob_variant_beats_control = 0.99`, the claim's
condition for `stop_test_no_winner` holds (`1000 ≥ 2·0` and `0.99 > 0.90`),
yet the code returns `declare_winner`, so the claim's clause
"`stop_test_no_winner` whenever `total_visitors ≥ 2·sample_size_needed` and
the Bayesian probability is decided" is false as stated. -/
theorem C1_counterexample :
    makeRecommendation true 30 1000 0 0.99 = "declare_winner" ∧
    ((0 : ℤ) * 2 ≤ (1000 : ℤ) ∧ ((0.99 : ℝ) < 0.10 ∨ (0.90 : ℝ) < 0.99)) ∧
    "declare_winner" ≠ "stop_test_no_winner" := by
  refine ⟨?_, ⟨by norm_num, Or.inr (by norm_num)⟩, by decide⟩
  have h : |(30 : ℝ)| = 30 := abs_of_nonneg (by norm_num)
  rw [makeRecommendation, if_pos ⟨rfl, by rw [h]; norm_num⟩]

/-- Claim C1, amended.  The decision policy is the priority-ordered decision
table: `declare_winner` if `is_significant ∧ |uplift| ≥ 2`; otherwise
`stop_test_no_winner` if `is_significant ∧ |uplift| < 2` or
`total_visitors ≥ 2·sample_size_needed ∧ (prob < 0.10 ∨ prob > 0.90)`;
otherwise `continue_test`.  (The `declare_winner` clause takes priority on
inputs where both conditions hold.) -/
theorem C1_amended_thm (sig : Bool) (u : ℝ) (tv : ℕ) (ssn : ℤ) (p : ℝ) :
    makeRecommendation sig u tv ssn p =
      if sig = true ∧ 2 ≤ |u| then "declare_winner"
      else if (sig = true ∧ |u| < 2) ∨ (ssn * 2 ≤ (tv : ℤ) ∧ (p < 0.10 ∨ 0.90 < p)) then
        "stop_test_no_winner"
      else "continue_test" := by
  rw [makeRecommendation]
  by_cases h1 : sig = true ∧ 2 ≤ |u|
  · rw [if_pos h1, if_pos h1]
  · rw [if_neg h1, if_neg h1]
    by_cases h2 : sig = true ∧ |u| < 2
    · rw [if_pos h2, if_pos (Or.inl h2)]
    · rw [if_neg h2]
      by_cases h3 : ssn * 2 ≤ (tv : ℤ) ∧ (p < 0.10 ∨ 0.90 < p)
      · rw [if_pos h3, if_pos (Or.inr h3)]
      · rw [if_neg h3, if_neg (by tauto)]

/-- Claim C7: the seed used by the Bayesian engine is the constant 42 for
every argument tuple — `_bayesian_analysis` accepts no seed/generator, so
identical inputs always use the identical (hard-coded) generator state. -/
theorem C7_thm : ∀ c1 n1 c2 n2 ns c1' n1' c2' n2' ns' : ℕ,
    bayesianSeedUsed c1 n1 c2 n2 ns = 42 ∧
    bayesianSeedUsed c1 n1 c2 n2 ns = bayesianSeedUsed c1' n1' c2' n2' ns' :=
  fun _ _ _ _ _ _ _ _ _ _ => ⟨rfl, rfl⟩

/-- Claim C8: every invocation of the Bayesian engine made by the analyze
endpoint uses the sample count 100000, which never exceeds 1000000; the
default of the `n_samples` parameter is 100000; and the count used is
independent of the client request (it is the same for any two requests). -/
theorem C8_thm : ∀ req req' : ExperimentAnalyzeRequest,
    analyzeNSamples req = 100000 ∧ analyzeNSamples req ≤ 1000000 ∧
    bayesianDefaultNSamples = 100000 ∧ analyzeNSamples req = analyzeNSamples req' := by
  intro req req'
  exact ⟨rfl, by norm_num [analyzeNSamples], rfl, rfl⟩

/-- Swapping the two arms leaves the pooled proportion unchanged. -/
theorem pooledProp_swap (cCtrl nCtrl cVar nVar : ℕ) :
    pooledProp cVar nVar cCtrl nCtrl = pooledProp cCtrl nCtrl cVar nVar := by
  unfold pooledProp
  rw [add_comm ((cVar : ℝ)) ((cCtrl : ℝ)), add_comm ((nVar : ℝ)) ((nCtrl : ℝ))]

/-- Swapping the two arms leaves the pooled standard error unchanged. -/
theorem standardError_swap (cCtrl nCtrl cVar nVar : ℕ) :
    standardError cVar nVar cCtrl nCtrl = standardError cCtrl nCtrl cVar nVar := by
  unfold standardError
  rw [pooledProp_swap, add_comm (1 / (nVar : ℝ)) (1 / (nCtrl : ℝ))]

/-- Sign behaviour of `x / c * 100` for a positive denominator `c`. -/
theorem uplift_sign_aux {x c : ℝ} (hc : 0 < c) :
    (0 < x / c * 100 ↔ 0 < x) ∧ (x / c * 100 = 0 ↔ x = 0) ∧ (x / c * 100 < 0 ↔ x < 0) := by
  have hk : 0 < 100 / c := by positivity
  have hrw : x / c * 100 = x * (100 / c) := by ring
  rw [hrw]
  refine ⟨⟨fun h => ?_, fun h => mul_pos h hk⟩,
    ⟨fun h => ?_, fun h => by rw [h, zero_mul]⟩,
    ⟨fun h => ?_, fun h => mul_neg_of_neg_of_pos h hk⟩⟩
  · by_contra hx
    push_neg at hx
    nlinarith
  · rcases mul_eq_zero.mp h with h' | h'
    · exact h'
    · exact absurd h' hk.ne'
  · by_contra hx
    push_neg at hx
    nlinarith

/-- Claim C5, counterexample.  With control = (0 conversions, 1 visitor) and
variant = (1, 1): the original analysis has control rate 0, so its relative
uplift is the fallback value 0; the swapped analysis has uplift -100.  The
swap therefore neither negates the relative uplift (-100 is not -0) nor flips
its sign (sign -1 is not -sign 0), while the claim asserts it flips. -/
theorem C5_counterexample :
    relativeUpliftPct 0 1 1 1 = 0 ∧ relativeUpliftPct 1 1 0 1 = -100 ∧
    relativeUpliftPct 1 1 0 1 ≠ -relativeUpliftPct 0 1 1 1 ∧
    Real.sign (relativeUpliftPct 1 1 0 1) ≠ -Real.sign (relativeUpliftPct 0 1 1 1) := by
  have h0 : relativeUpliftPct 0 1 1 1 = 0 := by
    unfold relativeUpliftPct
    norm_num
  have h1 : relativeUpliftPct 1 1 0 1 = -100 := by
    unfold relativeUpliftPct
    norm_num
  refine ⟨h0, h1, ?_, ?_⟩
  · rw [h0, h1]; norm_num
  · rw [h0, h1, Real.sign_zero, Real.sign_of_neg (by norm_num)]
    norm_num

/-- Claim C5, amended.  Swapping the control and variant inputs negates the
z-score and leaves the p-value unchanged (for every input); the sign of the
relative uplift flips (positive to negative, zero to zero, negative to
positive) whenever both arms' conversion rates are positive — when the
control rate is 0 the uplift takes the fallback value 0 and the flip can
fail, and the magnitude of the uplift is in general not preserved. -/
theorem C5_amended_thm (cCtrl nCtrl cVar nVar : ℕ) :
    (zTestProportions cVar nVar cCtrl nCtrl).1 = -(zTestProportions cCtrl nCtrl cVar nVar).1 ∧
    (zTestProportions cVar nVar cCtrl nCtrl).2 = (zTestProportions cCtrl nCtrl cVar nVar).2 ∧
    (0 < (cCtrl : ℝ) / (nCtrl : ℝ) → 0 < (cVar : ℝ) / (nVar : ℝ) →
      ((0 < relativeUpliftPct cCtrl nCtrl cVar nVar →
          relativeUpliftPct cVar nVar cCtrl nCtrl < 0) ∧
        (relativeUpliftPct cCtrl nCtrl cVar nVar = 0 →
          relativeUpliftPct cVar nVar cCtrl nCtrl = 0) ∧
        (relativeUpliftPct cCtrl nCtrl cVar nVar < 0 →
          0 < relativeUpliftPct cVar nVar cCtrl nCtrl))) := by
  constructor
  · unfold zTestProportions
    rw [pooledProp_swap, standardError_swap]
    by_cases hn : nCtrl = 0 ∨ nVar = 0
    · rw [if_pos hn.symm, if_pos hn, neg_zero]
    · rw [if_neg (fun h => hn h.symm), if_neg hn]
      split_ifs with h2 h3
      · rw [neg_zero]
      · rw [neg_zero]
      · dsimp only
        rw [← neg_div, neg_sub]
  · constructor
    · unfold zTestProportions
      rw [pooledProp_swap, standardError_swap]
      by_cases hn : nCtrl = 0 ∨ nVar = 0
      · rw [if_pos hn.symm, if_pos hn]
      · rw [if_neg (fun h => hn h.symm), if_neg hn]
        split_ifs with h2 h3
        · rfl
        · rfl
        · dsimp only
          rw [show ((cCtrl : ℝ) / nCtrl - (cVar : ℝ) / nVar) / standardError cCtrl nCtrl cVar nVar
                = -(((cVar : ℝ) / nVar - (cCtrl : ℝ) / nCtrl) /
                    standardError cCtrl nCtrl cVar nVar) by ring,
            abs_neg]
    · intro hcr hvr
      unfold relativeUpliftPct
      rw [if_pos hcr, if_pos hvr]
      have hc := uplift_sign_aux (x := (cVar : ℝ) / nVar - (cCtrl : ℝ) / nCtrl) hcr
      have hv := uplift_sign_aux (x := (cCtrl : ℝ) / nCtrl - (cVar : ℝ) / nVar) hvr
      refine ⟨fun h => hv.2.2.mpr ?_, fun h => hv.2.1.mpr ?_, fun h => hv.1.mpr ?_⟩
      · have := hc.1.mp h; linarith
      · have := hc.2.1.mp h; linarith
      · have := hc.2.2.mp h; linarith

/-- Claim C5, witness for the amended theorem at control = (1,10),
variant = (2,10): the p-value is unchanged under the swap and the positive
uplift (+100) becomes negative. -/
theorem C5_witness :
    (zTestProportions 2 10 1 10).2 = (zTestProportions 1 10 2 10).2 ∧
    relativeUpliftPct 2 10 1 10 < 0 := by
  have h := C5_amended_thm 1 10 2 10
  refine ⟨h.2.1, (h.2.2 (by norm_num) (by norm_num)).1 ?_⟩
  unfold relativeUpliftPct
  rw [if_pos (by norm_num : (0:ℝ) < (1:ℕ) / ((10:ℕ):ℝ))]
  norm_num

/-- Claim C2: on the z-test's domain (visitor counts at least 1, conversions
not exceeding visitors), the degenerate cases `p_pool = 0`, `p_pool = 1` and
`se = 0` return exactly `(z, p) = (0, 1)` (the model is a total function:
no exception is possible), and in every other case the test returns
`z = (p_var - p_ctrl)/se` with `se = sqrt(p_pool(1-p_pool)(1/n_ctrl+1/n_var))`
and the two-tailed `p = 2(1 - Phi(|z|))` clamped to `[0, 1]`. -/
theorem C2_thm (cCtrl nCtrl cVar nVar : ℕ) (hnc : 1 ≤ nCtrl) (hnv : 1 ≤ nVar)
    (hcc : cCtrl ≤ nCtrl) (hcv : cVar ≤ nVar) :
    ((pooledProp cCtrl nCtrl cVar nVar = 0 ∨ pooledProp cCtrl nCtrl cVar nVar = 1 ∨
        standardError cCtrl nCtrl cVar nVar = 0) →
      zTestProportions cCtrl nCtrl cVar nVar = (0, 1)) ∧
    (pooledProp cCtrl nCtrl cVar nVar ≠ 0 → pooledProp cCtrl nCtrl cVar nVar ≠ 1 →
      standardError cCtrl nCtrl cVar nVar ≠ 0 →
      zTestProportions cCtrl nCtrl cVar nVar =
        (((cVar : ℝ) / nVar - (cCtrl : ℝ) / nCtrl) / standardError cCtrl nCtrl cVar nVar,
          max 0 (min 1 (2 * (1 - normCdf
            |((cVar : ℝ) / nVar - (cCtrl : ℝ) / nCtrl) /
              standardError cCtrl nCtrl cVar nVar|))))) := by
  have hn : ¬(nCtrl = 0 ∨ nVar = 0) := by omega
  have hden : (0 : ℝ) < (nCtrl : ℝ) + (nVar : ℝ) := by
    have h1 : (1 : ℝ) ≤ (nCtrl : ℝ) := by exact_mod_cast hnc
    have h2 : (0 : ℝ) ≤ (nVar : ℝ) := Nat.cast_nonneg _
    linarith
  have hp0 : 0 ≤ pooledProp cCtrl nCtrl cVar nVar := by
    unfold pooledProp
    have : (0 : ℝ) ≤ (cCtrl : ℝ) + (cVar : ℝ) := by positivity
    exact div_nonneg this hden.le
  have hp1 : pooledProp cCtrl nCtrl cVar nVar ≤ 1 := by
    unfold pooledProp
    rw [div_le_one hden]
    have h1 : (cCtrl : ℝ) ≤ (nCtrl : ℝ) := by exact_mod_cast hcc
    have h2 : (cVar : ℝ) ≤ (nVar : ℝ) := by exact_mod_cast hcv
    linarith
  constructor
  · rintro (h | h | h)
    · rw [zTestProportions, if_neg hn, if_pos (Or.inl h.le)]
    · rw [zTestProportions, if_neg hn, if_pos (Or.inr h.ge)]
    · rw [zTestProportions, if_neg hn]
      by_cases hp : pooledProp cCtrl nCtrl cVar nVar ≤ 0 ∨ 1 ≤ pooledProp cCtrl nCtrl cVar nVar
      · rw [if_pos hp]
      · rw [if_neg hp, if_pos h]
  · intro h0 h1 hse
    have hcond : ¬(pooledProp cCtrl nCtrl cVar nVar ≤ 0 ∨ 1 ≤ pooledProp cCtrl nCtrl cVar nVar) := by
      rintro (h | h)
      · exact h0 (le_antisymm h hp0)
      · exact h1 (le_antisymm hp1 h)
    rw [zTestProportions, if_neg hn, if_neg hcond, if_neg hse]

/-- Claim C2, witness at control = (1 of 2), variant = (1 of 2): the pooled
proportion is 1/2, the standard error is 1/2, and the non-degenerate formula
branch applies. -/
theorem C2_witness :
    zTestProportions 1 2 1 2 =
      (((1 : ℕ) / ((2 : ℕ) : ℝ) - ((1 : ℕ) : ℝ) / ((2 : ℕ) : ℝ)) / standardError 1 2 1 2,
        max 0 (min 1 (2 * (1 - normCdf
          |(((1 : ℕ) : ℝ) / ((2 : ℕ) : ℝ) - ((1 : ℕ) : ℝ) / ((2 : ℕ) : ℝ)) /
            standardError 1 2 1 2|)))) := by
  have hpool : pooledProp 1 2 1 2 = 1 / 2 := by
    unfold pooledProp
    norm_num
  have hse : standardError 1 2 1 2 = 1 / 2 := by
    unfold standardError
    rw [hpool]
    rw [show (1 / 2 * (1 - 1 / 2) * (1 / ((2 : ℕ) : ℝ) + 1 / ((2 : ℕ) : ℝ)) : ℝ) = (1 / 2) ^ 2 by
      norm_num]
    exact Real.sqrt_sq (by norm_num)
  exact (C2_thm 1 2 1 2 (by norm_num) (by norm_num) (by norm_num) (by norm_num)).2
    (by rw [hpool]; norm_num) (by rw [hpool]; norm_num) (by rw [hse]; norm_num)

/-- Claim C9: requests in which conversions exceed visitors in either arm are
rejected with the corresponding client error (the guards of lines 70–73 run
before any statistical computation), and every other request (with the
pydantic-validated visitor counts at least 1) produces a successful analysis —
no validation error is raised and no input is silently corrected. -/
theorem C9_thm (req : ExperimentAnalyzeRequest) (probB eL ciL ciH : ℝ)
    (hcv : 1 ≤ req.controlVisitors) (hvv : 1 ≤ req.variantVisitors) :
    (req.controlVisitors < req.controlConversions →
      analyzeExperiment req probB eL ciL ciH =
        .error "control_conversions cannot exceed control_visitors") ∧
    (req.controlConversions ≤ req.controlVisitors →
      req.variantVisitors < req.variantConversions →
      analyzeExperiment req probB eL ciL ciH =
        .error "variant_conversions cannot exceed variant_visitors") ∧
    (req.controlConversions ≤ req.controlVisitors →
      req.variantConversions ≤ req.variantVisitors →
      analyzeExperiment req probB eL ciL ciH = .ok (analyzeCore req probB eL ciL ciH)) := by
  unfold analyzeExperiment
  refine ⟨fun h => by rw [if_pos h], fun h1 h2 => ?_, fun h1 h2 => ?_⟩
  · rw [if_neg (not_lt.mpr h1), if_pos h2]
  · rw [if_neg (not_lt.mpr h1), if_neg (not_lt.mpr h2)]

/-- Claim C9, witness: a request with control conversions exceeding control
visitors errors; one with excess variant conversions errors; a consistent
request succeeds. -/
theorem C9_witness :
    analyzeExperiment ⟨5, 3, 0, 1, 0.95⟩ 0 0 0 0 =
      .error "control_conversions cannot exceed control_visitors" ∧
    analyzeExperiment ⟨1, 2, 3, 2, 0.95⟩ 0 0 0 0 =
      .error "variant_conversions cannot exceed variant_visitors" ∧
    analyzeExperiment ⟨1, 2, 1, 2, 0.95⟩ 0 0 0 0 =
      .ok (analyzeCore ⟨1, 2, 1, 2, 0.95⟩ 0 0 0 0) :=
  ⟨(C9_thm ⟨5, 3, 0, 1, 0.95⟩ 0 0 0 0 (by decide) (by decide)).1 (by decide),
    (C9_thm ⟨1, 2, 3, 2, 0.95⟩ 0 0 0 0 (by decide) (by decide)).2.1 (by decide) (by decide),
    (C9_thm ⟨1, 2, 1, 2, 0.95⟩ 0 0 0 0 (by decide) (by decide)).2.2 (by decide) (by decide)⟩

/-- Projection of the sample size through `analyzeCore` (definitional). -/
theorem analyzeCore_sampleSizeNeeded (req : ExperimentAnalyzeRequest) (p e l h : ℝ) :
    (analyzeCore req p e l h).sampleSizeNeeded =
      calculateSampleSize ((req.controlConversions : ℝ) / (req.controlVisitors : ℝ)) 0.10
        (1 - req.confidenceLevel) 0.80 := rfl

/-- Projection of the recommendation through `analyzeCore` (definitional). -/
theorem analyzeCore_recommendation (req : ExperimentAnalyzeRequest) (p e l h : ℝ) :
    (analyzeCore req p e l h).recommendation =
      makeRecommendation
        (if (zTestProportions req.controlConversions req.controlVisitors
              req.variantConversions req.variantVisitors).2 < 1 - req.confidenceLevel
          then true else false)
        (relativeUpliftPct req.controlConversions req.controlVisitors
          req.variantConversions req.variantVisitors)
        (req.controlVisitors + req.variantVisitors)
        (calculateSampleSize ((req.controlConversions : ℝ) / (req.controlVisitors : ℝ)) 0.10
          (1 - req.confidenceLevel) 0.80)
        p := rfl

/-- With no conversions at all, every guard of the z-test collapses to the
degenerate `(0, 1)` result. -/
theorem zTestProportions_zero (v v' : ℕ) : zTestProportions 0 v 0 v' = (0, 1) := by
  unfold zTestProportions
  by_cases hn : v = 0 ∨ v' = 0
  · rw [if_pos hn]
  · rw [if_neg hn, if_pos]
    left
    unfold pooledProp
    simp

/-- With a zero control rate the planner returns 0 (source lines 250–251). -/
theorem calculateSampleSize_zero (m a pw : ℝ) : calculateSampleSize 0 m a pw = 0 := by
  unfold calculateSampleSize
  rw [if_pos (Or.inl le_rfl)]

/-- Claim C10: for every valid request whose control arm has zero conversions
the planner's baseline rate is 0 and the response's `sample_size_needed` is 0,
so `total_visitors ≥ 2·sample_size_needed` holds for every visitor count; and
for the concrete zero-conversion family of requests, any Bayesian probability
below 0.10 makes the recommendation `stop_test_no_winner` regardless of how
few visitors there are. -/
theorem C10_thm :
    (∀ (req : ExperimentAnalyzeRequest) (probB eL ciL ciH : ℝ),
      req.controlConversions = 0 → 1 ≤ req.controlVisitors →
      req.variantConversions ≤ req.variantVisitors →
      ∃ resp, analyzeExperiment req probB eL ciL ciH = .ok resp ∧
        resp.sampleSizeNeeded = 0 ∧ ∀ tv : ℕ, resp.sampleSizeNeeded * 2 ≤ (tv : ℤ)) ∧
    (∀ (v v' : ℕ) (p eL ciL ciH : ℝ), p < 0.10 →
      (analyzeCore ⟨0, v, 0, v', 0.95⟩ p eL ciL ciH).recommendation = "stop_test_no_winner") := by
  constructor
  · intro req probB eL ciL ciH h0 hcv hvc
    refine ⟨analyzeCore req probB eL ciL ciH, ?_, ?_, ?_⟩
    · rw [analyzeExperiment, if_neg (by omega), if_neg (not_lt.mpr hvc)]
    · rw [analyzeCore_sampleSizeNeeded, h0]
      rw [show (((0 : ℕ) : ℝ) / (req.controlVisitors : ℝ)) = 0 by simp]
      exact calculateSampleSize_zero _ _ _
    · intro tv
      rw [analyzeCore_sampleSizeNeeded, h0]
      rw [show (((0 : ℕ) : ℝ) / (req.controlVisitors : ℝ)) = 0 by simp]
      rw [calculateSampleSize_zero]
      positivity
  · intro v v' p eL ciL ciH hp
    rw [analyzeCore_recommendation]
    have hz : (zTestProportions 0 v 0 v').2 = 1 := by rw [zTestProportions_zero]
    have hsig : (if (zTestProportions 0 v 0 v').2 < 1 - (0.95 : ℝ) then true else false) = false := by
      rw [hz, if_neg (by norm_num)]
    have hssn : calculateSampleSize (((0 : ℕ) : ℝ) / ((v : ℕ) : ℝ)) 0.10 (1 - (0.95 : ℝ)) 0.80
        = 0 := by
      rw [show (((0 : ℕ) : ℝ) / ((v : ℕ) : ℝ)) = 0 by simp]
      exact calculateSampleSize_zero _ _ _
    rw [hsig, hssn]
    rw [makeRecommendation, if_neg (by simp), if_neg (by simp)]
    rw [if_pos ⟨by positivity, Or.inl hp⟩]

/-- Claim C10, witness at the smallest admissible request (1 visitor per arm,
zero conversions) with Bayesian probability 0.05. -/
theorem C10_witness :
    (∃ resp, analyzeExperiment ⟨0, 1, 0, 1, 0.95⟩ 0.05 0 0 0 = .ok resp ∧
      resp.sampleSizeNeeded = 0 ∧ ∀ tv : ℕ, resp.sampleSizeNeeded * 2 ≤ (tv : ℤ)) ∧
    (analyzeCore ⟨0, 1, 0, 1, 0.95⟩ 0.05 0 0 0).recommendation = "stop_test_no_winner" :=
  ⟨C10_thm.1 ⟨0, 1, 0, 1, 0.95⟩ 0.05 0 0 0 rfl (by decide) (by decide),
    C10_thm.2 1 1 0.05 0 0 0 (by norm_num)⟩

/-- Rational bounds on `log (4/5)` from the Taylor series of `log (1 - x)`
at `x = 1/5`. -/
theorem log_four_fifths_bounds :
    (-0.2231436 : ℝ) < Real.log (4 / 5) ∧ Real.log (4 / 5) < -0.2231435 := by
  have habs : |(1 / 5 : ℝ)| = 1 / 5 := abs_of_nonneg (by norm_num)
  have h := Real.abs_log_sub_add_sum_range_le (x := 1 / 5) (by rw [habs]; norm_num) 10
  rw [habs, show (1 - 1 / 5 : ℝ) = 4 / 5 by norm_num] at h
  obtain ⟨h1, h2⟩ := abs_le.mp h
  have hslo : (0.22314354 : ℝ) < ∑ i ∈ Finset.range 10, (1 / 5 : ℝ) ^ (i + 1) / (i + 1) := by
    norm_num [Finset.sum_range_succ]
  have hshi : (∑ i ∈ Finset.range 10, (1 / 5 : ℝ) ^ (i + 1) / (i + 1)) < 0.22314356 := by
    norm_num [Finset.sum_range_succ]
  have heps : ((1 / 5 : ℝ)) ^ (10 + 1) / (1 - 1 / 5) < 0.00000003 := by norm_num
  constructor
  · linarith
  · linarith

/-- Decomposition `log 40 = 5 log 2 - log (4/5)`. -/
theorem log_forty : Real.log 40 = 5 * Real.log 2 - Real.log (4 / 5) := by
  rw [show (40 : ℝ) = 2 ^ 5 * (4 / 5)⁻¹ by norm_num,
    Real.log_mul (by norm_num) (by norm_num), Real.log_pow, Real.log_inv]
  push_cast
  ring

/-- Decomposition `log 5 = 2 log 2 - log (4/5)`. -/
theorem log_five : Real.log 5 = 2 * Real.log 2 - Real.log (4 / 5) := by
  rw [show (5 : ℝ) = 2 ^ 2 * (4 / 5)⁻¹ by norm_num,
    Real.log_mul (by norm_num) (by norm_num), Real.log_pow, Real.log_inv]
  push_cast
  ring

/-- On the branch `p ≥ 0.5` the Beasley–Springer–Moro approximation is the
explicit rational function of `t = sqrt(-2 log(1-p))`. -/
theorem normPpf_of_half_le {p : ℝ} (hp : 0.5 ≤ p) :
    normPpf p =
      Real.sqrt (-2 * Real.log (1 - p)) -
        (2.515517 + Real.sqrt (-2 * Real.log (1 - p)) * (0.802853 +
            Real.sqrt (-2 * Real.log (1 - p)) * 0.010328)) /
          (1 + Real.sqrt (-2 * Real.log (1 - p)) * (1.432788 +
            Real.sqrt (-2 * Real.log (1 - p)) * (0.189269 +
              Real.sqrt (-2 * Real.log (1 - p)) * 0.001308))) := by
  unfold normPpf
  rw [if_neg (not_lt.mpr hp), if_pos hp]

set_option maxHeartbeats 2000000 in
/-- Numeric bounds for the approximate upper-tail critical value at
confidence 0.975. -/
theorem normPpf_q975_bounds : (1.9601 : ℝ) < normPpf 0.975 ∧ normPpf 0.975 < 1.96072 := by
  rw [normPpf_of_half_le (by norm_num : (0.5 : ℝ) ≤ 0.975)]
  have hA : -2 * Real.log (1 - (0.975 : ℝ)) = 10 * Real.log 2 - 2 * Real.log (4 / 5) := by
    rw [show (1 - (0.975 : ℝ)) = (40 : ℝ)⁻¹ by norm_num, Real.log_inv, log_forty]
    ring
  have hl2lo := Real.log_two_gt_d9
  have hl2hi := Real.log_two_lt_d9
  have hlg := log_four_fifths_bounds
  have hAlo : (7.3777588 : ℝ) < -2 * Real.log (1 - (0.975 : ℝ)) := by
    rw [hA]; linarith [hlg.2]
  have hAhi : -2 * Real.log (1 - (0.975 : ℝ)) < 7.3777591 := by
    rw [hA]; linarith [hlg.1]
  set t := Real.sqrt (-2 * Real.log (1 - (0.975 : ℝ))) with hts
  have ht0 : 0 < t := Real.sqrt_pos.mpr (by linarith)
  have htl : (2.7160 : ℝ) < t := by
    rw [hts]
    exact (Real.lt_sqrt (by norm_num)).mpr (lt_trans (by norm_num) hAlo)
  have hth : t < 2.7164 := by
    rw [hts]
    exact (Real.sqrt_lt' (by norm_num)).mpr (lt_trans hAhi (by norm_num))
  have hi1lo : (0.8309038 : ℝ) < 0.802853 + t * 0.010328 := by linarith
  have hi1hi : 0.802853 + t * 0.010328 < 0.8309080 := by linarith
  have hnum_lo : (4.77205 : ℝ) < 2.515517 + t * (0.802853 + t * 0.010328) := by
    linarith [mul_lt_mul'' htl hi1lo (by norm_num : (0:ℝ) ≤ 2.7160) (by norm_num : (0:ℝ) ≤ 0.8309038)]
  have hnum_hi : 2.515517 + t * (0.802853 + t * 0.010328) < 4.77260 := by
    linarith [mul_lt_mul'' hth hi1hi ht0.le (by linarith : (0:ℝ) ≤ 0.802853 + t * 0.010328)]
  have hd3lo : (0.1928215 : ℝ) < 0.189269 + t * 0.001308 := by linarith
  have hd3hi : 0.189269 + t * 0.001308 < 0.1928222 := by linarith
  have hd2lo : (1.9564899 : ℝ) < 1.432788 + t * (0.189269 + t * 0.001308) := by
    linarith [mul_lt_mul'' htl hd3lo (by norm_num : (0:ℝ) ≤ 2.7160) (by norm_num : (0:ℝ) ≤ 0.1928215)]
  have hd2hi : 1.432788 + t * (0.189269 + t * 0.001308) < 1.956571 := by
    linarith [mul_lt_mul'' hth hd3hi ht0.le (by linarith : (0:ℝ) ≤ 0.189269 + t * 0.001308)]
  have hdlo : (6.313826 : ℝ) < 1 + t * (1.432788 + t * (0.189269 + t * 0.001308)) := by
    linarith [mul_lt_mul'' htl hd2lo (by norm_num : (0:ℝ) ≤ 2.7160) (by norm_num : (0:ℝ) ≤ 1.9564899)]
  have hdhi : 1 + t * (1.432788 + t * (0.189269 + t * 0.001308)) < 6.314830 := by
    linarith [mul_lt_mul'' hth hd2hi ht0.le
      (by linarith : (0:ℝ) ≤ 1.432788 + t * (0.189269 + t * 0.001308))]
  have hden_pos : (0 : ℝ) < 1 + t * (1.432788 + t * (0.189269 + t * 0.001308)) := by linarith
  have hr_hi : (2.515517 + t * (0.802853 + t * 0.010328)) /
      (1 + t * (1.432788 + t * (0.189269 + t * 0.001308))) ≤ 4.77260 / 6.313826 :=
    div_le_div (by norm_num) hnum_hi.le (by norm_num) hdlo.le
  have hr_lo : (4.77205 : ℝ) / 6.314830 ≤ (2.515517 + t * (0.802853 + t * 0.010328)) /
      (1 + t * (1.432788 + t * (0.189269 + t * 0.001308))) :=
    div_le_div (by linarith) hnum_lo.le hden_pos hdhi.le
  have hc1 : (4.77260 : ℝ) / 6.313826 < 0.75590 := by norm_num
  have hc2 : (0.755689 : ℝ) < 4.77205 / 6.314830 := by norm_num
  constructor
  · linarith
  · linarith

set_option maxHeartbeats 2000000 in
/-- Numeric bounds for the approximate power critical value at power 0.80. -/
theorem normPpf_q80_bounds : (0.84125 : ℝ) < normPpf 0.80 ∧ normPpf 0.80 < 0.84160 := by
  rw [normPpf_of_half_le (by norm_num : (0.5 : ℝ) ≤ 0.80)]
  have hA : -2 * Real.log (1 - (0.80 : ℝ)) = 4 * Real.log 2 - 2 * Real.log (4 / 5) := by
    rw [show (1 - (0.80 : ℝ)) = (5 : ℝ)⁻¹ by norm_num, Real.log_inv, log_five]
    ring
  have hl2lo := Real.log_two_gt_d9
  have hl2hi := Real.log_two_lt_d9
  have hlg := log_four_fifths_bounds
  have hAlo : (3.2188757 : ℝ) < -2 * Real.log (1 - (0.80 : ℝ)) := by
    rw [hA]; linarith [hlg.2]
  have hAhi : -2 * Real.log (1 - (0.80 : ℝ)) < 3.2188760 := by
    rw [hA]; linarith [hlg.1]
  set t := Real.sqrt (-2 * Real.log (1 - (0.80 : ℝ))) with hts
  have ht0 : 0 < t := Real.sqrt_pos.mpr (by linarith)
  have htl : (1.7940 : ℝ) < t := by
    rw [hts]
    exact (Real.lt_sqrt (by norm_num)).mpr (lt_trans (by norm_num) hAlo)
  have hth : t < 1.7942 := by
    rw [hts]
    exact (Real.sqrt_lt' (by norm_num)).mpr (lt_trans hAhi (by norm_num))
  have hi1lo : (0.8213814 : ℝ) < 0.802853 + t * 0.010328 := by linarith
  have hi1hi : 0.802853 + t * 0.010328 < 0.8213836 := by linarith
  have hnum_lo : (3.98907 : ℝ) < 2.515517 + t * (0.802853 + t * 0.010328) := by
    linarith [mul_lt_mul'' htl hi1lo (by norm_num : (0:ℝ) ≤ 1.7940) (by norm_num : (0:ℝ) ≤ 0.8213814)]
  have hnum_hi : 2.515517 + t * (0.802853 + t * 0.010328) < 3.98925 := by
    linarith [mul_lt_mul'' hth hi1hi ht0.le (by linarith : (0:ℝ) ≤ 0.802853 + t * 0.010328)]
  have hd3lo : (0.1916155 : ℝ) < 0.189269 + t * 0.001308 := by linarith
  have hd3hi : 0.189269 + t * 0.001308 < 0.1916159 := by linarith
  have hd2lo : (1.776546 : ℝ) < 1.432788 + t * (0.189269 + t * 0.001308) := by
    linarith [mul_lt_mul'' htl hd3lo (by norm_num : (0:ℝ) ≤ 1.7940) (by norm_num : (0:ℝ) ≤ 0.1916155)]
  have hd2hi : 1.432788 + t * (0.189269 + t * 0.001308) < 1.776586 := by
    linarith [mul_lt_mul'' hth hd3hi ht0.le (by linarith : (0:ℝ) ≤ 0.189269 + t * 0.001308)]
  have hdlo : (4.187123 : ℝ) < 1 + t * (1.432788 + t * (0.189269 + t * 0.001308)) := by
    linarith [mul_lt_mul'' htl hd2lo (by norm_num : (0:ℝ) ≤ 1.7940) (by norm_num : (0:ℝ) ≤ 1.776546)]
  have hdhi : 1 + t * (1.432788 + t * (0.189269 + t * 0.001308)) < 4.187551 := by
    linarith [mul_lt_mul'' hth hd2hi ht0.le
      (by linarith : (0:ℝ) ≤ 1.432788 + t * (0.189269 + t * 0.001308))]
  have hden_pos : (0 : ℝ) < 1 + t * (1.432788 + t * (0.189269 + t * 0.001308)) := by linarith
  have hr_hi : (2.515517 + t * (0.802853 + t * 0.010328)) /
      (1 + t * (1.432788 + t * (0.189269 + t * 0.001308))) ≤ 3.98925 / 4.187123 :=
    div_le_div (by norm_num) hnum_hi.le (by norm_num) hdlo.le
  have hr_lo : (3.98907 : ℝ) / 4.187551 ≤ (2.515517 + t * (0.802853 + t * 0.010328)) /
      (1 + t * (1.432788 + t * (0.189269 + t * 0.001308))) :=
    div_le_div (by linarith) hnum_lo.le hden_pos hdhi.le
  have hc1 : (3.98925 : ℝ) / 4.187123 < 0.95275 := by norm_num
  have hc2 : (0.95260 : ℝ) < 3.98907 / 4.187551 := by norm_num
  constructor
  · linarith
  · linarith

/-- Evaluation of the planner at the worked-example parameters: the guard
fails, `p2 = min(0.055, 0.9999) = 0.055`, and the ceiling formula applies. -/
theorem calculateSampleSize_value :
    calculateSampleSize 0.05 0.10 0.05 0.80 =
      ⌈(normPpf 0.975 + normPpf 0.80) ^ 2 * ((0.05 : ℝ) * (1 - 0.05) + 0.055 * (1 - 0.055)) /
        ((0.05 : ℝ) - 0.055) ^ 2⌉ := by
  unfold calculateSampleSize
  rw [if_neg (by norm_num)]
  rw [show min ((0.05 : ℝ) * (1 + 0.10)) 0.9999 = 0.055 by
    rw [min_eq_left (by norm_num)]; norm_num]
  rw [show (1 - (0.05 : ℝ) / 2) = 0.975 by norm_num]
  rw [if_neg (by norm_num : ¬((0.05 : ℝ) - 0.055) ^ 2 = 0)]

/-- Claim C4: the sample-size planner is exactly the closed-form ceiling
formula with `p1 = baseline`, `p2 = min(p1(1+mde), 0.9999)`, returning 0 when
the baseline is outside `(0, 1)` or `p1 = p2`; and at `baseline = 0.05`,
`mde = 0.10`, `alpha = 0.05`, `power = 0.80` the result is within 1% of
31,200. -/
theorem C4_thm :
    (∀ b m a pw : ℝ,
      ((b ≤ 0 ∨ 1 ≤ b) → calculateSampleSize b m a pw = 0) ∧
      (0 < b → b < 1 → b = min (b * (1 + m)) 0.9999 → calculateSampleSize b m a pw = 0) ∧
      (0 < b → b < 1 → b ≠ min (b * (1 + m)) 0.9999 →
        calculateSampleSize b m a pw =
          ⌈(normPpf (1 - a / 2) + normPpf pw) ^ 2 *
              (b * (1 - b) + min (b * (1 + m)) 0.9999 * (1 - min (b * (1 + m)) 0.9999)) /
            (b - min (b * (1 + m)) 0.9999) ^ 2⌉)) ∧
    |calculateSampleSize 0.05 0.10 0.05 0.80 - 31200| ≤ 312 := by
  constructor
  · intro b m a pw
    refine ⟨fun h => by rw [calculateSampleSize, if_pos h], fun h1 h2 h3 => ?_, fun h1 h2 h3 => ?_⟩
    · rw [calculateSampleSize, if_neg (by push_neg; exact ⟨h1, h2⟩)]
      have hz : (b - min (b * (1 + m)) 0.9999) ^ 2 = 0 := by
        rw [← h3, sub_self]
        norm_num
      rw [if_pos hz]
    · rw [calculateSampleSize, if_neg (by push_neg; exact ⟨h1, h2⟩)]
      have hz : ¬(b - min (b * (1 + m)) 0.9999) ^ 2 = 0 := by
        rw [pow_eq_zero_iff (by norm_num : (2 : ℕ) ≠ 0), sub_eq_zero]
        exact h3
      rw [if_neg hz]
  · rw [calculateSampleSize_value]
    have hza := normPpf_q975_bounds
    have hzb := normPpf_q80_bounds
    have hslo : (2.80135 : ℝ) < normPpf 0.975 + normPpf 0.80 := by linarith [hza.1, hzb.1]
    have hshi : normPpf 0.975 + normPpf 0.80 < 2.80232 := by linarith [hza.2, hzb.2]
    have hs0 : (0 : ℝ) ≤ normPpf 0.975 + normPpf 0.80 := by linarith
    have hsq_lo : (7.8475 : ℝ) < (normPpf 0.975 + normPpf 0.80) ^ 2 := by
      nlinarith [mul_lt_mul'' hslo hslo (by norm_num : (0:ℝ) ≤ 2.80135) (by norm_num : (0:ℝ) ≤ 2.80135)]
    have hsq_hi : (normPpf 0.975 + normPpf 0.80) ^ 2 < 7.85300 := by
      nlinarith [mul_lt_mul'' hshi hshi hs0 hs0]
    have hrw : ∀ s : ℝ, s ^ 2 * ((0.05 : ℝ) * (1 - 0.05) + 0.055 * (1 - 0.055)) /
        ((0.05 : ℝ) - 0.055) ^ 2 = s ^ 2 * 3979 := fun s => by ring
    rw [hrw]
    have hvlo : (31225 : ℝ) < (normPpf 0.975 + normPpf 0.80) ^ 2 * 3979 := by nlinarith
    have hvhi : (normPpf 0.975 + normPpf 0.80) ^ 2 * 3979 < 31248 := by nlinarith
    have h1 : (31225 : ℤ) < ⌈(normPpf 0.975 + normPpf 0.80) ^ 2 * 3979⌉ := by
      rw [Int.lt_ceil]
      push_cast
      linarith
    have h2 : ⌈(normPpf 0.975 + normPpf 0.80) ^ 2 * 3979⌉ ≤ 31248 := by
      rw [Int.ceil_le]
      push_cast
      linarith
    rw [abs_le]
    omega

/-- Claim C4, witness: a baseline outside `(0, 1)` returns a sample size
of 0 via the theorem's first clause. -/
theorem C4_witness : calculateSampleSize 2 0.1 0.05 0.8 = 0 :=
  (C4_thm.1 2 0.1 0.05 0.8).1 (Or.inr (by norm_num))

/-- Partial sum (orders `0..n`) of the Taylor series of `exp (-u)`. -/
noncomputable def expNegTaylor (n : ℕ) (u : ℝ) : ℝ :=
  ∑ k ∈ Finset.range (n + 1), (-u) ^ k / (k.factorial : ℝ)

/-- At `u = 0` every Taylor partial sum of `exp (-u)` equals 1. -/
theorem expNegTaylor_zero (n : ℕ) : expNegTaylor n 0 = 1 := by
  unfold expNegTaylor
  rw [Finset.sum_eq_single 0]
  · norm_num
  · intro b _ hb
    rw [neg_zero, zero_pow hb, zero_div]
  · intro h
    exact absurd (Finset.mem_range.mpr (by omega)) h

/-- Rewriting the partial sum with separated signs. -/
theorem expNegTaylor_eq (n : ℕ) (u : ℝ) :
    expNegTaylor n u = ∑ k ∈ Finset.range (n + 1), (-1) ^ k * u ^ k / (k.factorial : ℝ) := by
  unfold expNegTaylor
  refine Finset.sum_congr rfl fun k _ => ?_
  rw [neg_pow]

/-- Differentiating the order-`n+1` partial sum gives minus the order-`n`
partial sum. -/
theorem hasDerivAt_expNegTaylor (n : ℕ) (u : ℝ) :
    HasDerivAt (fun v => expNegTaylor (n + 1) v) (-expNegTaylor n u) u := by
  have hfun : (fun v => expNegTaylor (n + 1) v) =
      fun v => ∑ k ∈ Finset.range (n + 2), (-1) ^ k * v ^ k / (k.factorial : ℝ) := by
    funext v
    exact expNegTaylor_eq (n + 1) v
  rw [hfun]
  have h : HasDerivAt
      (fun v => ∑ k ∈ Finset.range (n + 2), (-1) ^ k * v ^ k / (k.factorial : ℝ))
      (∑ k ∈ Finset.range (n + 2), (-1) ^ k * ((k : ℝ) * u ^ (k - 1)) / (k.factorial : ℝ)) u := by
    apply HasDerivAt.sum
    intro k _
    exact (HasDerivAt.const_mul ((-1 : ℝ) ^ k) (hasDerivAt_pow k u)).div_const _
  convert h using 1
  rw [Finset.sum_range_succ' _ (n + 1)]
  have h0 : (-1 : ℝ) ^ 0 * ((0 : ℕ) * u ^ (0 - 1)) / ((0 : ℕ).factorial : ℝ) = 0 := by
    norm_num
  rw [h0, add_zero]
  rw [expNegTaylor_eq, neg_eq_iff_eq_neg, ← Finset.sum_neg_distrib]
  refine Finset.sum_congr rfl fun i _ => ?_
  have h1 : ((i : ℝ) + 1) ≠ 0 := by positivity
  have h2 : ((i.factorial : ℝ)) ≠ 0 := Nat.cast_ne_zero.mpr i.factorial_ne_zero
  rw [Nat.factorial_succ]
  push_cast
  rw [pow_succ]
  field_simp
  ring

/-- Alternating-series bounds for `exp (-u)`, `u ≥ 0`: even-order partial
sums lie above the exponential and odd-order partial sums lie below. -/
theorem expNegTaylor_alternating (n : ℕ) :
    ∀ u : ℝ, 0 ≤ u → 0 ≤ (-1) ^ n * (expNegTaylor n u - Real.exp (-u)) := by
  induction n with
  | zero =>
    intro u hu
    have h1 : expNegTaylor 0 u = 1 := by
      unfold expNegTaylor
      norm_num
    rw [h1, pow_zero, one_mul, sub_nonneg]
    exact Real.exp_le_one_iff.mpr (by linarith)
  | succ n ih =>
    intro u hu
    have hderiv : ∀ v : ℝ,
        HasDerivAt (fun w => (-1 : ℝ) ^ (n + 1) * (expNegTaylor (n + 1) w - Real.exp (-w)))
          ((-1) ^ n * (expNegTaylor n v - Real.exp (-v))) v := by
      intro v
      have h1 : HasDerivAt (fun w : ℝ => Real.exp (-w)) (Real.exp (-v) * -1) v :=
        HasDerivAt.exp (hasDerivAt_neg' v)
      have h2 := ((hasDerivAt_expNegTaylor n v).sub h1).const_mul ((-1 : ℝ) ^ (n + 1))
      convert h2 using 1
      rw [pow_succ]
      ring
    have hmono : MonotoneOn
        (fun w => (-1 : ℝ) ^ (n + 1) * (expNegTaylor (n + 1) w - Real.exp (-w)))
        (Set.Ici 0) := by
      apply monotoneOn_of_deriv_nonneg (convex_Ici 0)
      · exact fun v _ => (hderiv v).continuousAt.continuousWithinAt
      · exact fun v _ => (hderiv v).differentiableAt.differentiableWithinAt
      · intro v hv
        rw [(hderiv v).deriv]
        exact ih v (le_of_lt (by simpa [interior_Ici] using hv))
    have hle := hmono Set.left_mem_Ici (Set.mem_Ici.mpr hu) hu
    simpa [expNegTaylor_zero] using hle

/-- Even-order Taylor sums dominate `exp (-u)` for `u ≥ 0`. -/
theorem exp_neg_le_expNegTaylor {n : ℕ} (hn : Even n) {u : ℝ} (hu : 0 ≤ u) :
    Real.exp (-u) ≤ expNegTaylor n u := by
  have h := expNegTaylor_alternating n u hu
  rw [hn.neg_one_pow, one_mul] at h
  linarith

/-- Odd-order Taylor sums are dominated by `exp (-u)` for `u ≥ 0`. -/
theorem expNegTaylor_le_exp_neg {n : ℕ} (hn : Odd n) {u : ℝ} (hu : 0 ≤ u) :
    expNegTaylor n u ≤ Real.exp (-u) := by
  have h := expNegTaylor_alternating n u hu
  rw [hn.neg_one_pow] at h
  linarith

/-- Termwise integral of the Taylor partial sums of the erf integrand over
`[0, a]`. -/
noncomputable def erfTaylor (n : ℕ) (a : ℝ) : ℝ :=
  ∑ k ∈ Finset.range (n + 1), (-1) ^ k * a ^ (2 * k + 1) / ((k.factorial : ℝ) * (2 * k + 1))

/-- The composed Taylor partial sums are continuous. -/
theorem continuous_expNegTaylor_sq (n : ℕ) :
    Continuous fun t : ℝ => expNegTaylor n (t ^ 2) := by
  unfold expNegTaylor
  apply continuous_finset_sum
  intro k _
  exact ((continuous_pow 2).neg.pow k).div_const _

/-- The Gaussian integrand is integrable on every interval. -/
theorem intervalIntegrable_exp_neg_sq (a b : ℝ) :
    IntervalIntegrable (fun t : ℝ => Real.exp (-t ^ 2)) MeasureTheory.volume a b :=
  (Real.continuous_exp.comp (continuous_pow 2).neg).intervalIntegrable a b

/-- Integrating the order-`n` Taylor sum of `exp (-t^2)` over `[0, a]`. -/
theorem integral_expNegTaylor_sq (n : ℕ) (a : ℝ) :
    ∫ t in (0 : ℝ)..a, expNegTaylor n (t ^ 2) = erfTaylor n a := by
  have h1 : ∀ t : ℝ, expNegTaylor n (t ^ 2) =
      ∑ k ∈ Finset.range (n + 1), (-1) ^ k / (k.factorial : ℝ) * t ^ (2 * k) := by
    intro t
    rw [expNegTaylor_eq]
    refine Finset.sum_congr rfl fun k _ => ?_
    rw [← pow_mul]
    ring
  simp only [h1]
  rw [intervalIntegral.integral_finset_sum
    (fun k _ => (continuous_const.mul (continuous_pow (2 * k))).intervalIntegrable 0 a)]
  unfold erfTaylor
  refine Finset.sum_congr rfl fun k _ => ?_
  rw [intervalIntegral.integral_const_mul, integral_pow,
    zero_pow (by omega : 2 * k + 1 ≠ 0)]
  have hk : ((k.factorial : ℝ)) ≠ 0 := Nat.cast_ne_zero.mpr k.factorial_ne_zero
  have hk2 : (0 : ℝ) < 2 * (k : ℝ) + 1 := by positivity
  push_cast
  field_simp

/-- Even-order Taylor integrals dominate the Gaussian integral on `[0, a]`. -/
theorem integral_exp_sq_le {n : ℕ} (hn : Even n) {a : ℝ} (ha : 0 ≤ a) :
    ∫ t in (0 : ℝ)..a, Real.exp (-t ^ 2) ≤ erfTaylor n a := by
  rw [← integral_expNegTaylor_sq]
  refine intervalIntegral.integral_mono_on ha (intervalIntegrable_exp_neg_sq 0 a)
    ((continuous_expNegTaylor_sq n).intervalIntegrable 0 a) fun t _ => ?_
  exact exp_neg_le_expNegTaylor hn (sq_nonneg t)

/-- Odd-order Taylor integrals are dominated by the Gaussian integral. -/
theorem le_integral_exp_sq {n : ℕ} (hn : Odd n) {a : ℝ} (ha : 0 ≤ a) :
    erfTaylor n a ≤ ∫ t in (0 : ℝ)..a, Real.exp (-t ^ 2) := by
  rw [← integral_expNegTaylor_sq]
  refine intervalIntegral.integral_mono_on ha
    ((continuous_expNegTaylor_sq n).intervalIntegrable 0 a)
    (intervalIntegrable_exp_neg_sq 0 a) fun t _ => ?_
  exact expNegTaylor_le_exp_neg hn (sq_nonneg t)

/-- The Gaussian integral over `[0, a]` is monotone in the endpoint. -/
theorem integral_exp_sq_mono {a b : ℝ} (hab : a ≤ b) :
    ∫ t in (0 : ℝ)..a, Real.exp (-t ^ 2) ≤ ∫ t in (0 : ℝ)..b, Real.exp (-t ^ 2) := by
  rw [← intervalIntegral.integral_add_adjacent_intervals
    (intervalIntegrable_exp_neg_sq 0 a) (intervalIntegrable_exp_neg_sq a b)]
  have h : 0 ≤ ∫ t in a..b, Real.exp (-t ^ 2) :=
    intervalIntegral.integral_nonneg hab fun x _ => (Real.exp_pos _).le
  linarith

/-- The error function is odd. -/
theorem erf_neg (x : ℝ) : erf (-x) = -erf x := by
  unfold erf
  have h1 : ∫ t in (0 : ℝ)..(-x), Real.exp (-t ^ 2) =
      -∫ t in (-x)..(0 : ℝ), Real.exp (-t ^ 2) :=
    intervalIntegral.integral_symm _ _
  have h2 : ∫ t in (-x)..(0 : ℝ), Real.exp (-t ^ 2) =
      ∫ t in (0 : ℝ)..x, Real.exp (-t ^ 2) := by
    have h3 := intervalIntegral.integral_comp_neg (a := 0) (b := x)
      (fun t : ℝ => Real.exp (-t ^ 2))
    simp only [neg_zero, neg_sq] at h3
    rw [← h3]
  rw [h1, h2]
  ring

/-- Banker's rounding moves a real by at most one half. -/
theorem abs_roundHalfEven_sub (y : ℝ) : |(roundHalfEven y : ℝ) - y| ≤ 1 / 2 := by
  unfold roundHalfEven
  by_cases h : Int.fract y = 1 / 2
  · rw [if_pos h]
    have hy : y = (⌊y⌋ : ℝ) + 1 / 2 := by
      rw [← h]
      exact (Int.floor_add_fract y).symm
    rcases Int.even_or_odd ⌊y⌋ with ⟨j, hj⟩ | ⟨j, hj⟩
    · have hy2 : y / 2 = (j : ℝ) + 1 / 4 := by
        rw [hy, hj]
        push_cast
        ring
      rw [hy2, round_int_add]
      have hr : round ((1 : ℝ) / 4) = 0 := by
        rw [round_eq]
        exact Int.floor_eq_iff.mpr (by norm_num)
      rw [hr, add_zero, hy, hj]
      push_cast
      rw [abs_le]
      constructor <;> linarith
    · have hy2 : y / 2 = (j : ℝ) + 3 / 4 := by
        rw [hy, hj]
        push_cast
        ring
      rw [hy2, round_int_add]
      have hr : round ((3 : ℝ) / 4) = 1 := by
        rw [round_eq]
        exact Int.floor_eq_iff.mpr (by norm_num)
      rw [hr, hy, hj]
      push_cast
      rw [abs_le]
      constructor <;> linarith
  · rw [if_neg h, abs_sub_comm]
    exact abs_sub_round y

/-- Python's `round(x, d)` moves a real by at most `0.5 * 10^(-d)`. -/
theorem abs_roundTo_sub (d : ℕ) (x : ℝ) : |roundTo d x - x| ≤ 1 / 2 / 10 ^ d := by
  unfold roundTo
  have h10 : (0 : ℝ) < 10 ^ d := by positivity
  have h : (roundHalfEven (x * 10 ^ d) : ℝ) / 10 ^ d - x =
      ((roundHalfEven (x * 10 ^ d) : ℝ) - x * 10 ^ d) / 10 ^ d := by
    field_simp
    ring
  rw [h, abs_div, abs_of_pos h10]
  exact (div_le_div_right h10).mpr (abs_roundHalfEven_sub _)

/-- Rounding the exact relative uplift of the worked example is the identity. -/
theorem roundTo_four_thirty : roundTo 4 (30 : ℝ) = 30 := by
  unfold roundTo roundHalfEven
  rw [show (30 : ℝ) * 10 ^ 4 = ((300000 : ℤ) : ℝ) by norm_num]
  rw [Int.fract_intCast, if_neg (by norm_num), round_intCast]
  norm_num

/-- Projection of the rounded z-score through `analyzeCore` (definitional). -/
theorem analyzeCore_zScore (req : ExperimentAnalyzeRequest) (p e l h : ℝ) :
    (analyzeCore req p e l h).frequentist.zScore =
      roundTo 4 (zTestProportions req.controlConversions req.controlVisitors
        req.variantConversions req.variantVisitors).1 := rfl

/-- Projection of the rounded p-value through `analyzeCore` (definitional). -/
theorem analyzeCore_pValue (req : ExperimentAnalyzeRequest) (p e l h : ℝ) :
    (analyzeCore req p e l h).frequentist.pValue =
      roundTo 6 (zTestProportions req.controlConversions req.controlVisitors
        req.variantConversions req.variantVisitors).2 := rfl

/-- Projection of the significance flag through `analyzeCore` (definitional). -/
theorem analyzeCore_isSignificant (req : ExperimentAnalyzeRequest) (p e l h : ℝ) :
    (analyzeCore req p e l h).frequentist.isSignificant =
      (if (zTestProportions req.controlConversions req.controlVisitors
            req.variantConversions req.variantVisitors).2 < 1 - req.confidenceLevel
        then true else false) := rfl

/-- Projection of the rounded relative uplift through `analyzeCore`
(definitional). -/
theorem analyzeCore_relUplift (req : ExperimentAnalyzeRequest) (p e l h : ℝ) :
    (analyzeCore req p e l h).frequentist.relativeUpliftPct =
      roundTo 4 (relativeUpliftPct req.controlConversions req.controlVisitors
        req.variantConversions req.variantVisitors) := rfl

set_option maxHeartbeats 4000000 in
/-- Two-sided numeric bounds on `erf` over the interval of the worked
example's `z/sqrt 2`. -/
theorem erf_x_bounds (x : ℝ) (h1 : 1.4868 ≤ x) (h2 : x ≤ 1.4869) :
    (0.96449 : ℝ) < erf x ∧ erf x < 0.96455 := by
  have hsplo : (1.772453 : ℝ) < Real.sqrt π :=
    (Real.lt_sqrt (by norm_num)).mpr (lt_trans (by norm_num) Real.pi_gt_d6)
  have hsphi : Real.sqrt π < 1.772454 :=
    (Real.sqrt_lt' (by norm_num)).mpr (lt_trans Real.pi_lt_d6 (by norm_num))
  have hsppos : (0 : ℝ) < Real.sqrt π := by linarith
  have hIlo : (0.85476 : ℝ) < ∫ t in (0 : ℝ)..x, Real.exp (-t ^ 2) := by
    have ha := le_integral_exp_sq (n := 11) ⟨5, by norm_num⟩
      (show (0 : ℝ) ≤ 1.4868 by norm_num)
    have hb := integral_exp_sq_mono h1
    have hc : (0.85476 : ℝ) < erfTaylor 11 1.4868 := by
      norm_num [erfTaylor, Finset.sum_range_succ, Nat.factorial]
    linarith
  have hIhi : (∫ t in (0 : ℝ)..x, Real.exp (-t ^ 2)) < 0.85480 := by
    have ha := integral_exp_sq_le (n := 10) ⟨5, by norm_num⟩
      (show (0 : ℝ) ≤ 1.4869 by norm_num)
    have hb := integral_exp_sq_mono h2
    have hc : erfTaylor 10 1.4869 < 0.85480 := by
      norm_num [erfTaylor, Finset.sum_range_succ, Nat.factorial]
    linarith
  have hIpos : (0 : ℝ) < ∫ t in (0 : ℝ)..x, Real.exp (-t ^ 2) := by linarith
  unfold erf
  constructor
  · have h3 : (2 : ℝ) / 1.772454 < 2 / Real.sqrt π :=
      div_lt_div_of_pos_left (by norm_num) hsppos hsphi
    have h4 := mul_lt_mul'' h3 hIlo (by norm_num) (by norm_num)
    have h5 : (0.96449 : ℝ) < 2 / 1.772454 * 0.85476 := by norm_num
    linarith
  · have h3 : (2 : ℝ) / Real.sqrt π < 2 / 1.772453 :=
      div_lt_div_of_pos_left (by norm_num) (by norm_num) hsplo
    have h4 := mul_lt_mul'' h3 hIhi (by positivity) hIpos.le
    have h5 : (2 : ℝ) / 1.772453 * 0.85480 < 0.96455 := by norm_num
    linarith

set_option maxHeartbeats 1000000 in
/-- Claim C3: for the worked example control = (100, 1000), variant =
(130, 1000), confidence 0.95, the analysis has pooled rate 0.115, a z-score
within 0.01 of 2.10, a two-tailed p-value within 0.001 of 0.036 (hence
significant at alpha = 0.05), relative uplift exactly +30.0, and the
recommendation `declare_winner`, for every value of the Bayesian Monte-Carlo
outputs. -/
theorem C3_thm (probB eL ciL ciH : ℝ) :
    pooledProp 100 1000 130 1000 = 0.115 ∧
    |(analyzeCore ⟨100, 1000, 130, 1000, 0.95⟩ probB eL ciL ciH).frequentist.zScore - 2.10| <
      0.01 ∧
    |(analyzeCore ⟨100, 1000, 130, 1000, 0.95⟩ probB eL ciL ciH).frequentist.pValue - 0.036| <
      0.001 ∧
    (analyzeCore ⟨100, 1000, 130, 1000, 0.95⟩ probB eL ciL ciH).frequentist.isSignificant =
      true ∧
    (analyzeCore ⟨100, 1000, 130, 1000, 0.95⟩ probB eL ciL ciH).frequentist.relativeUpliftPct =
      30 ∧
    (analyzeCore ⟨100, 1000, 130, 1000, 0.95⟩ probB eL ciL ciH).recommendation =
      "declare_winner" := by
  have hpool : pooledProp 100 1000 130 1000 = 0.115 := by
    unfold pooledProp
    norm_num
  have hse_eq : standardError 100 1000 130 1000 = Real.sqrt (4071 / 20000000) := by
    unfold standardError
    rw [hpool]
    norm_num
  have hse_lo : (0.0142670 : ℝ) < standardError 100 1000 130 1000 := by
    rw [hse_eq]
    exact (Real.lt_sqrt (by norm_num)).mpr (by norm_num)
  have hse_hi : standardError 100 1000 130 1000 < 0.0142672 := by
    rw [hse_eq]
    exact (Real.sqrt_lt' (by norm_num)).mpr (by norm_num)
  have hse_pos : (0 : ℝ) < standardError 100 1000 130 1000 := by linarith
  have hzt := (C2_thm 100 1000 130 1000 (by norm_num) (by norm_num) (by norm_num)
    (by norm_num)).2 (by rw [hpool]; norm_num) (by rw [hpool]; norm_num) (by linarith)
  rw [show ((130 : ℕ) : ℝ) / ((1000 : ℕ) : ℝ) - ((100 : ℕ) : ℝ) / ((1000 : ℕ) : ℝ) = 0.03
    by norm_num] at hzt
  have hz_lo : (2.10272 : ℝ) < 0.03 / standardError 100 1000 130 1000 := by
    have h := div_lt_div_of_pos_left (show (0 : ℝ) < 0.03 by norm_num) hse_pos hse_hi
    have h2 : (2.10272 : ℝ) < 0.03 / 0.0142672 := by norm_num
    linarith
  have hz_hi : 0.03 / standardError 100 1000 130 1000 < 2.10276 := by
    have h := div_lt_div_of_pos_left (show (0 : ℝ) < 0.03 by norm_num)
      (show (0 : ℝ) < 0.0142670 by norm_num) hse_lo
    have h2 : (0.03 : ℝ) / 0.0142670 < 2.10276 := by norm_num
    linarith
  have hz_pos : (0 : ℝ) < 0.03 / standardError 100 1000 130 1000 := by linarith
  have hmul : standardError 100 1000 130 1000 * Real.sqrt 2 = Real.sqrt (4071 / 10000000) := by
    rw [hse_eq, ← Real.sqrt_mul (by norm_num : (0 : ℝ) ≤ 4071 / 20000000)]
    norm_num
  have hx_eq : 0.03 / standardError 100 1000 130 1000 / Real.sqrt 2 =
      0.03 / Real.sqrt (4071 / 10000000) := by
    rw [div_div, hmul]
  have hsq_lo : (0.0201767 : ℝ) < Real.sqrt (4071 / 10000000) :=
    (Real.lt_sqrt (by norm_num)).mpr (by norm_num)
  have hsq_hi : Real.sqrt (4071 / 10000000) < 0.0201768 :=
    (Real.sqrt_lt' (by norm_num)).mpr (by norm_num)
  have hsq_pos : (0 : ℝ) < Real.sqrt (4071 / 10000000) := by linarith
  have hx_lo : (1.4868 : ℝ) ≤ 0.03 / standardError 100 1000 130 1000 / Real.sqrt 2 := by
    rw [hx_eq]
    have h := div_lt_div_of_pos_left (show (0 : ℝ) < 0.03 by norm_num) hsq_pos hsq_hi
    have h2 : (1.4868 : ℝ) < 0.03 / 0.0201768 := by norm_num
    linarith
  have hx_hi : 0.03 / standardError 100 1000 130 1000 / Real.sqrt 2 ≤ 1.4869 := by
    rw [hx_eq]
    have h := div_lt_div_of_pos_left (show (0 : ℝ) < 0.03 by norm_num)
      (show (0 : ℝ) < 0.0201767 by norm_num) hsq_lo
    have h2 : (0.03 : ℝ) / 0.0201767 < 1.4869 := by norm_num
    linarith
  have herf := erf_x_bounds _ hx_lo hx_hi
  have hcdf : normCdf |0.03 / standardError 100 1000 130 1000| =
      0.5 * (1 + erf (0.03 / standardError 100 1000 130 1000 / Real.sqrt 2)) := by
    rw [abs_of_pos hz_pos]
    unfold normCdf erfc
    rw [neg_div, erf_neg]
    ring
  have hp_eq : 2 * (1 - normCdf |0.03 / standardError 100 1000 130 1000|) =
      1 - erf (0.03 / standardError 100 1000 130 1000 / Real.sqrt 2) := by
    rw [hcdf]
    ring
  have hp_lo : (0.03545 : ℝ) < 2 * (1 - normCdf |0.03 / standardError 100 1000 130 1000|) := by
    rw [hp_eq]
    linarith [herf.2]
  have hp_hi : 2 * (1 - normCdf |0.03 / standardError 100 1000 130 1000|) < 0.03551 := by
    rw [hp_eq]
    linarith [herf.1]
  have hclamp : max 0 (min 1 (2 * (1 - normCdf |0.03 / standardError 100 1000 130 1000|))) =
      2 * (1 - normCdf |0.03 / standardError 100 1000 130 1000|) := by
    rw [min_eq_right (by linarith), max_eq_right (by linarith)]
  rw [hclamp] at hzt
  have hru : relativeUpliftPct 100 1000 130 1000 = 30 := by
    unfold relativeUpliftPct
    rw [if_pos (by norm_num)]
    norm_num
  refine ⟨hpool, ?_, ?_, ?_, ?_, ?_⟩
  · rw [analyzeCore_zScore, hzt]
    dsimp only
    have hr := abs_roundTo_sub 4 (0.03 / standardError 100 1000 130 1000)
    have htri := abs_sub_le (roundTo 4 (0.03 / standardError 100 1000 130 1000))
      (0.03 / standardError 100 1000 130 1000) 2.10
    have habs : |0.03 / standardError 100 1000 130 1000 - 2.10| < 0.0028 :=
      abs_lt.mpr ⟨by linarith, by linarith⟩
    have hr2 : |roundTo 4 (0.03 / standardError 100 1000 130 1000) -
        0.03 / standardError 100 1000 130 1000| ≤ 0.00005 := by
      have h : (1 : ℝ) / 2 / 10 ^ 4 = 0.00005 := by norm_num
      linarith [hr]
    linarith
  · rw [analyzeCore_pValue, hzt]
    dsimp only
    have hr := abs_roundTo_sub 6 (2 * (1 - normCdf |0.03 / standardError 100 1000 130 1000|))
    have htri := abs_sub_le
      (roundTo 6 (2 * (1 - normCdf |0.03 / standardError 100 1000 130 1000|)))
      (2 * (1 - normCdf |0.03 / standardError 100 1000 130 1000|)) 0.036
    have habs : |2 * (1 - normCdf |0.03 / standardError 100 1000 130 1000|) - 0.036| <
        0.00056 := abs_lt.mpr ⟨by linarith, by linarith⟩
    have hr2 : |roundTo 6 (2 * (1 - normCdf |0.03 / standardError 100 1000 130 1000|)) -
        2 * (1 - normCdf |0.03 / standardError 100 1000 130 1000|)| ≤ 0.0000005 := by
      have h : (1 : ℝ) / 2 / 10 ^ 6 = 0.0000005 := by norm_num
      linarith [hr]
    linarith
  · rw [analyzeCore_isSignificant, hzt]
    dsimp only
    rw [if_pos (by linarith : 2 * (1 - normCdf |0.03 / standardError 100 1000 130 1000|) <
      1 - 0.95)]
  · rw [analyzeCore_relUplift]
    dsimp only
    rw [hru, roundTo_four_thirty]
  · rw [analyzeCore_recommendation, hzt]
    dsimp only
    rw [hru]
    rw [if_pos (by linarith : 2 * (1 - normCdf |0.03 / standardError 100 1000 130 1000|) <
      1 - 0.95)]
    rw [makeRecommendation,
      if_pos ⟨rfl, by rw [abs_of_nonneg (by norm_num : (0 : ℝ) ≤ 30)]; norm_num⟩]

/-- Key discrete inequality for z-score monotonicity, nonnegative-numerator
case: increasing the variant successes by one step `δ = 1/n_var` grows the
squared numerator at least as fast as the pooled variance term. -/
theorem zmono_key_pos {b δ s N : ℝ} (hb : 0 ≤ b) (hδ : 0 < δ) (hs : 0 ≤ s)
    (hbs : b ≤ s * δ) (hsN : s + 1 ≤ N) :
    b ^ 2 * ((s + 1) * (N - s - 1)) ≤ (b + δ) ^ 2 * (s * (N - s)) := by
  rcases le_or_lt N (2 * s + 1) with h | h
  · have h1 : (s + 1) * (N - s - 1) ≤ s * (N - s) := by nlinarith
    have h3 : (0 : ℝ) ≤ (s + 1) * (N - s - 1) := by nlinarith
    have h2 : b ^ 2 ≤ (b + δ) ^ 2 := by nlinarith
    have h4 := mul_le_mul_of_nonneg_right h2 h3
    have h5 := mul_le_mul_of_nonneg_left h1 (sq_nonneg (b + δ))
    linarith
  · have h1 : b * (N - 2 * s - 1) ≤ s * δ * (N - 2 * s - 1) :=
      mul_le_mul_of_nonneg_right hbs (by linarith)
    have h2 : b ^ 2 * (N - 2 * s - 1) ≤ b * (s * δ * (N - 2 * s - 1)) := by
      nlinarith [mul_le_mul_of_nonneg_left h1 hb]
    have h3 : s * δ * (N - 2 * s - 1) ≤ s * δ * (2 * (N - s)) :=
      mul_le_mul_of_nonneg_left (by linarith) (by positivity)
    have h4 : b * (s * δ * (N - 2 * s - 1)) ≤ b * (s * δ * (2 * (N - s))) :=
      mul_le_mul_of_nonneg_left h3 hb
    have key : b ^ 2 * (N - 2 * s - 1) ≤ 2 * b * δ * (s * (N - s)) := by nlinarith
    nlinarith [mul_nonneg (mul_nonneg hs (by linarith : (0 : ℝ) ≤ N - s)) (sq_nonneg δ)]

/-- Key discrete inequality for z-score monotonicity, nonpositive-numerator
case (stated for the negated numerator `β = -b'`). -/
theorem zmono_key_neg {β δ s u : ℝ} (hβ : 0 ≤ β) (hδ : 0 < δ) (hs : 0 ≤ s)
    (hu : 0 ≤ u) (hβu : β ≤ u * δ) :
    β ^ 2 * (s * (u + 1)) ≤ (β + δ) ^ 2 * ((s + 1) * u) := by
  rcases le_or_lt s u with h | h
  · have h1 : s * (u + 1) ≤ (s + 1) * u := by nlinarith
    have h3 : (0 : ℝ) ≤ s * (u + 1) := by positivity
    have h2 : β ^ 2 ≤ (β + δ) ^ 2 := by nlinarith
    have h4 := mul_le_mul_of_nonneg_right h2 h3
    have h5 := mul_le_mul_of_nonneg_left h1 (sq_nonneg (β + δ))
    linarith
  · have h1 : β * (s - u) ≤ u * δ * (s - u) :=
      mul_le_mul_of_nonneg_right hβu (by linarith)
    have h2 : β ^ 2 * (s - u) ≤ β * (u * δ * (s - u)) := by
      nlinarith [mul_le_mul_of_nonneg_left h1 hβ]
    have h3 : u * δ * (s - u) ≤ u * δ * (2 * (s + 1)) :=
      mul_le_mul_of_nonneg_left (by linarith) (by positivity)
    have h4 : β * (u * δ * (s - u)) ≤ β * (u * δ * (2 * (s + 1))) :=
      mul_le_mul_of_nonneg_left h3 hβ
    have key : β ^ 2 * (s - u) ≤ 2 * β * δ * ((s + 1) * u) := by nlinarith
    nlinarith [mul_nonneg (mul_nonneg (by linarith : (0 : ℝ) ≤ s + 1) hu) (sq_nonneg δ)]

/-- Comparison of quotients by square roots via squared cross-multiplication. -/
theorem div_sqrt_le {p q x y : ℝ} (hp : 0 ≤ p) (hq : 0 ≤ q) (hx : 0 < x) (hy : 0 < y)
    (h : p ^ 2 * y ≤ q ^ 2 * x) : p / Real.sqrt x ≤ q / Real.sqrt y := by
  have hsx := Real.sqrt_pos.mpr hx
  have hsy := Real.sqrt_pos.mpr hy
  rw [div_le_div_iff hsx hsy]
  have h1 : 0 ≤ p * Real.sqrt y := mul_nonneg hp (Real.sqrt_nonneg _)
  have h2 : 0 ≤ q * Real.sqrt x := mul_nonneg hq (Real.sqrt_nonneg _)
  have hsq : (p * Real.sqrt y) ^ 2 ≤ (q * Real.sqrt x) ^ 2 := by
    rw [mul_pow, mul_pow, Real.sq_sqrt hy.le, Real.sq_sqrt hx.le]
    linarith
  calc p * Real.sqrt y = Real.sqrt ((p * Real.sqrt y) ^ 2) := (Real.sqrt_sq h1).symm
    _ ≤ Real.sqrt ((q * Real.sqrt x) ^ 2) := Real.sqrt_le_sqrt hsq
    _ = q * Real.sqrt x := Real.sqrt_sq h2

/-- The pooled standard error is positive whenever the pooled proportion lies
strictly between 0 and 1. -/
theorem standardError_pos (cCtrl nCtrl cVar nVar : ℕ) (hnc : 1 ≤ nCtrl) (hnv : 1 ≤ nVar)
    (h0 : 0 < pooledProp cCtrl nCtrl cVar nVar) (h1 : pooledProp cCtrl nCtrl cVar nVar < 1) :
    0 < standardError cCtrl nCtrl cVar nVar := by
  unfold standardError
  apply Real.sqrt_pos.mpr
  have hncR : (1 : ℝ) ≤ (nCtrl : ℝ) := by exact_mod_cast hnc
  have hnvR : (1 : ℝ) ≤ (nVar : ℝ) := by exact_mod_cast hnv
  have hk : (0 : ℝ) < 1 / (nCtrl : ℝ) + 1 / (nVar : ℝ) := by
    have h2 : (0 : ℝ) < 1 / (nCtrl : ℝ) := by positivity
    have h3 : (0 : ℝ) < 1 / (nVar : ℝ) := by positivity
    linarith
  exact mul_pos (mul_pos h0 (by linarith)) hk

/-- On the non-degenerate branch (some conversion, not all conversions) the
z-score is the explicit quotient. -/
theorem zTest_fst (cCtrl nCtrl cVar nVar : ℕ) (hnc : 1 ≤ nCtrl) (hnv : 1 ≤ nVar)
    (hcc : cCtrl ≤ nCtrl) (hcv : cVar ≤ nVar) (h0 : 0 < cCtrl + cVar)
    (h1 : cCtrl + cVar < nCtrl + nVar) :
    (zTestProportions cCtrl nCtrl cVar nVar).1 =
      ((cVar : ℝ) / (nVar : ℝ) - (cCtrl : ℝ) / (nCtrl : ℝ)) /
        standardError cCtrl nCtrl cVar nVar := by
  have hncR : (1 : ℝ) ≤ (nCtrl : ℝ) := by exact_mod_cast hnc
  have hnvR : (1 : ℝ) ≤ (nVar : ℝ) := by exact_mod_cast hnv
  have hN : (0 : ℝ) < (nCtrl : ℝ) + (nVar : ℝ) := by linarith
  have hP0 : 0 < pooledProp cCtrl nCtrl cVar nVar := by
    unfold pooledProp
    apply div_pos _ hN
    have : (0 : ℝ) < ((cCtrl + cVar : ℕ) : ℝ) := by exact_mod_cast h0
    push_cast at this
    linarith
  have hP1 : pooledProp cCtrl nCtrl cVar nVar < 1 := by
    unfold pooledProp
    rw [div_lt_one hN]
    have : ((cCtrl + cVar : ℕ) : ℝ) < ((nCtrl + nVar : ℕ) : ℝ) := by exact_mod_cast h1
    push_cast at this
    linarith
  have hse := standardError_pos cCtrl nCtrl cVar nVar hnc hnv hP0 hP1
  have h := (C2_thm cCtrl nCtrl cVar nVar hnc hnv hcc hcv).2 hP0.ne' (ne_of_lt hP1) hse.ne'
  rw [h]

/-- The standard error is a square root, hence nonnegative. -/
theorem standardError_nonneg (cCtrl nCtrl cVar nVar : ℕ) :
    0 ≤ standardError cCtrl nCtrl cVar nVar := Real.sqrt_nonneg _

set_option maxHeartbeats 1000000 in
/-- Holding the control arm and the variant visitor count fixed, one more
variant conversion never decreases the z-score (the embeddable half of the
monotonicity property; the Monte-Carlo probability has no shallow
embedding). -/
theorem zTest_mono_variant_conversions (cCtrl nCtrl cVar nVar : ℕ)
    (hnc : 1 ≤ nCtrl) (hnv : 1 ≤ nVar) (hcc : cCtrl ≤ nCtrl) (hcv : cVar + 1 ≤ nVar) :
    (zTestProportions cCtrl nCtrl cVar nVar).1 ≤
      (zTestProportions cCtrl nCtrl (cVar + 1) nVar).1 := by
  have hncR : (1 : ℝ) ≤ (nCtrl : ℝ) := by exact_mod_cast hnc
  have hnvR : (1 : ℝ) ≤ (nVar : ℝ) := by exact_mod_cast hnv
  have hccR : ((cCtrl : ℝ)) ≤ (nCtrl : ℝ) := by exact_mod_cast hcc
  have hcvR : ((cVar : ℝ)) + 1 ≤ (nVar : ℝ) := by exact_mod_cast hcv
  have hN : (0 : ℝ) < (nCtrl : ℝ) + (nVar : ℝ) := by linarith
  have hδ : (0 : ℝ) < 1 / (nVar : ℝ) := by positivity
  by_cases hs0 : cCtrl = 0 ∧ cVar = 0
  · obtain ⟨h1, h2⟩ := hs0
    subst h1
    subst h2
    rw [zTestProportions_zero,
      zTest_fst 0 nCtrl (0 + 1) nVar hnc hnv (Nat.zero_le _) hcv (by omega) (by omega)]
    dsimp only
    apply div_nonneg _ (standardError_nonneg _ _ _ _)
    push_cast
    rw [zero_div, sub_zero]
    positivity
  · by_cases hsN : cCtrl + cVar + 1 = nCtrl + nVar
    · have hP1' : pooledProp cCtrl nCtrl (cVar + 1) nVar = 1 := by
        unfold pooledProp
        rw [show ((cCtrl : ℝ) + ((cVar + 1 : ℕ) : ℝ)) = (nCtrl : ℝ) + (nVar : ℝ) by
          push_cast
          have : ((cCtrl + cVar + 1 : ℕ) : ℝ) = ((nCtrl + nVar : ℕ) : ℝ) := by
            exact_mod_cast congrArg (Nat.cast : ℕ → ℝ) hsN
          push_cast at this
          linarith]
        exact div_self (ne_of_gt hN)
      have hz' : zTestProportions cCtrl nCtrl (cVar + 1) nVar = (0, 1) :=
        (C2_thm cCtrl nCtrl (cVar + 1) nVar hnc hnv hcc hcv).1 (Or.inr (Or.inl hP1'))
      rw [hz', zTest_fst cCtrl nCtrl cVar nVar hnc hnv hcc (by omega) (by omega) (by omega)]
      dsimp only
      rw [div_nonpos_iff]
      right
      constructor
      · have hcn : cCtrl = nCtrl ∧ cVar + 1 = nVar := by omega
        have he1 : (cCtrl : ℝ) = (nCtrl : ℝ) := by exact_mod_cast hcn.1
        have he2 : ((cVar : ℝ)) + 1 = (nVar : ℝ) := by exact_mod_cast hcn.2
        have hd1 : (cCtrl : ℝ) / (nCtrl : ℝ) = 1 := by
          rw [he1]
          exact div_self (by linarith)
        have hd2 : (cVar : ℝ) / (nVar : ℝ) ≤ 1 := by
          rw [div_le_one (by linarith)]
          linarith
        linarith
      · exact standardError_nonneg _ _ _ _
    · have h0 : 0 < cCtrl + cVar := by
        rcases Nat.eq_zero_or_pos (cCtrl + cVar) with h | h
        · exact absurd ⟨by omega, by omega⟩ hs0
        · exact h
      have h1 : cCtrl + cVar + 1 < nCtrl + nVar := by omega
      rw [zTest_fst cCtrl nCtrl cVar nVar hnc hnv hcc (by omega) h0 (by omega),
        zTest_fst cCtrl nCtrl (cVar + 1) nVar hnc hnv hcc hcv (by omega) h1]
      have hb'eq : ((cVar + 1 : ℕ) : ℝ) / (nVar : ℝ) - (cCtrl : ℝ) / (nCtrl : ℝ) =
          ((cVar : ℝ) / (nVar : ℝ) - (cCtrl : ℝ) / (nCtrl : ℝ)) + 1 / (nVar : ℝ) := by
        push_cast
        ring
      have hP0 : 0 < pooledProp cCtrl nCtrl cVar nVar := by
        unfold pooledProp
        apply div_pos _ hN
        have : (0 : ℝ) < ((cCtrl + cVar : ℕ) : ℝ) := by exact_mod_cast h0
        push_cast at this
        linarith
      have hP1 : pooledProp cCtrl nCtrl cVar nVar < 1 := by
        unfold pooledProp
        rw [div_lt_one hN]
        have : ((cCtrl + cVar : ℕ) : ℝ) < ((nCtrl + nVar : ℕ) : ℝ) := by exact_mod_cast (by omega : cCtrl + cVar < nCtrl + nVar)
        push_cast at this
        linarith
      have hP0' : 0 < pooledProp cCtrl nCtrl (cVar + 1) nVar := by
        unfold pooledProp
        apply div_pos _ hN
        push_cast
        have hnn1 : (0 : ℝ) ≤ (cCtrl : ℝ) := by positivity
        have hnn2 : (0 : ℝ) ≤ (cVar : ℝ) := by positivity
        linarith
      have hP1' : pooledProp cCtrl nCtrl (cVar + 1) nVar < 1 := by
        unfold pooledProp
        rw [div_lt_one hN]
        have : ((cCtrl + cVar + 1 : ℕ) : ℝ) < ((nCtrl + nVar : ℕ) : ℝ) := by exact_mod_cast h1
        push_cast at this
        push_cast
        linarith
      have hk : (0 : ℝ) < 1 / (nCtrl : ℝ) + 1 / (nVar : ℝ) := by
        have h2 : (0 : ℝ) < 1 / (nCtrl : ℝ) := by positivity
        linarith
      have hxpos : 0 < pooledProp cCtrl nCtrl cVar nVar *
          (1 - pooledProp cCtrl nCtrl cVar nVar) * (1 / (nCtrl : ℝ) + 1 / (nVar : ℝ)) :=
        mul_pos (mul_pos hP0 (by linarith)) hk
      have hypos : 0 < pooledProp cCtrl nCtrl (cVar + 1) nVar *
          (1 - pooledProp cCtrl nCtrl (cVar + 1) nVar) * (1 / (nCtrl : ℝ) + 1 / (nVar : ℝ)) :=
        mul_pos (mul_pos hP0' (by linarith)) hk
      have hNne : ((nCtrl : ℝ) + (nVar : ℝ)) ≠ 0 := ne_of_gt hN
      have e1 : pooledProp cCtrl nCtrl cVar nVar * (1 - pooledProp cCtrl nCtrl cVar nVar) *
          (1 / (nCtrl : ℝ) + 1 / (nVar : ℝ)) =
          (((cCtrl : ℝ) + (cVar : ℝ)) * (((nCtrl : ℝ) + (nVar : ℝ)) -
            ((cCtrl : ℝ) + (cVar : ℝ)))) *
            ((1 / (nCtrl : ℝ) + 1 / (nVar : ℝ)) / (((nCtrl : ℝ) + (nVar : ℝ)) ^ 2)) := by
        unfold pooledProp
        rw [one_sub_div hNne, div_mul_div_comm]
        ring
      have e2 : pooledProp cCtrl nCtrl (cVar + 1) nVar *
          (1 - pooledProp cCtrl nCtrl (cVar + 1) nVar) *
          (1 / (nCtrl : ℝ) + 1 / (nVar : ℝ)) =
          (((cCtrl : ℝ) + (cVar : ℝ) + 1) * (((nCtrl : ℝ) + (nVar : ℝ)) -
            ((cCtrl : ℝ) + (cVar : ℝ)) - 1)) *
            ((1 / (nCtrl : ℝ) + 1 / (nVar : ℝ)) / (((nCtrl : ℝ) + (nVar : ℝ)) ^ 2)) := by
        unfold pooledProp
        rw [one_sub_div hNne, div_mul_div_comm]
        push_cast
        ring
      have hsum1 : (cCtrl : ℝ) + (cVar : ℝ) + 1 ≤ (nCtrl : ℝ) + (nVar : ℝ) := by
        have : ((cCtrl + cVar + 1 : ℕ) : ℝ) ≤ ((nCtrl + nVar : ℕ) : ℝ) := by
          exact_mod_cast le_of_lt h1
        push_cast at this
        linarith
      have hkN : (0 : ℝ) ≤ (1 / (nCtrl : ℝ) + 1 / (nVar : ℝ)) /
          (((nCtrl : ℝ) + (nVar : ℝ)) ^ 2) := by positivity
      unfold standardError
      rcases le_or_lt 0 ((cVar : ℝ) / (nVar : ℝ) - (cCtrl : ℝ) / (nCtrl : ℝ)) with hb | hbneg
      · have hb' : (0 : ℝ) ≤ ((cVar + 1 : ℕ) : ℝ) / (nVar : ℝ) - (cCtrl : ℝ) / (nCtrl : ℝ) := by
          rw [hb'eq]
          linarith
        have hbs : (cVar : ℝ) / (nVar : ℝ) - (cCtrl : ℝ) / (nCtrl : ℝ) ≤
            ((cCtrl : ℝ) + (cVar : ℝ)) * (1 / (nVar : ℝ)) := by
          have hc0 : (0 : ℝ) ≤ (cCtrl : ℝ) / (nCtrl : ℝ) := by positivity
          have hc2 : (cVar : ℝ) / (nVar : ℝ) = (cVar : ℝ) * (1 / (nVar : ℝ)) := by ring
          have hc3 : (cVar : ℝ) * (1 / (nVar : ℝ)) ≤
              ((cCtrl : ℝ) + (cVar : ℝ)) * (1 / (nVar : ℝ)) :=
            mul_le_mul_of_nonneg_right
              (by linarith [show (0 : ℝ) ≤ (cCtrl : ℝ) by positivity]) hδ.le
          linarith
        have hkey := zmono_key_pos hb hδ
          (by positivity : (0 : ℝ) ≤ (cCtrl : ℝ) + (cVar : ℝ)) hbs hsum1
        apply div_sqrt_le hb hb' hxpos hypos
        rw [hb'eq, e1, e2]
        calc ((cVar : ℝ) / (nVar : ℝ) - (cCtrl : ℝ) / (nCtrl : ℝ)) ^ 2 *
              ((((cCtrl : ℝ) + (cVar : ℝ) + 1) * (((nCtrl : ℝ) + (nVar : ℝ)) -
                ((cCtrl : ℝ) + (cVar : ℝ)) - 1)) *
                ((1 / (nCtrl : ℝ) + 1 / (nVar : ℝ)) / (((nCtrl : ℝ) + (nVar : ℝ)) ^ 2))) =
            (((cVar : ℝ) / (nVar : ℝ) - (cCtrl : ℝ) / (nCtrl : ℝ)) ^ 2 *
              (((cCtrl : ℝ) + (cVar : ℝ) + 1) * (((nCtrl : ℝ) + (nVar : ℝ)) -
                ((cCtrl : ℝ) + (cVar : ℝ)) - 1))) *
              ((1 / (nCtrl : ℝ) + 1 / (nVar : ℝ)) / (((nCtrl : ℝ) + (nVar : ℝ)) ^ 2)) := by
              ring
          _ ≤ ((((cVar : ℝ) / (nVar : ℝ) - (cCtrl : ℝ) / (nCtrl : ℝ)) + 1 / (nVar : ℝ)) ^ 2 *
              (((cCtrl : ℝ) + (cVar : ℝ)) * (((nCtrl : ℝ) + (nVar : ℝ)) -
                ((cCtrl : ℝ) + (cVar : ℝ))))) *
              ((1 / (nCtrl : ℝ) + 1 / (nVar : ℝ)) / (((nCtrl : ℝ) + (nVar : ℝ)) ^ 2)) :=
              mul_le_mul_of_nonneg_right hkey hkN
          _ = (((cVar : ℝ) / (nVar : ℝ) - (cCtrl : ℝ) / (nCtrl : ℝ)) + 1 / (nVar : ℝ)) ^ 2 *
              ((((cCtrl : ℝ) + (cVar : ℝ)) * (((nCtrl : ℝ) + (nVar : ℝ)) -
                ((cCtrl : ℝ) + (cVar : ℝ)))) *
                ((1 / (nCtrl : ℝ) + 1 / (nVar : ℝ)) / (((nCtrl : ℝ) + (nVar : ℝ)) ^ 2))) := by
              ring
      · rcases le_or_lt (((cVar + 1 : ℕ) : ℝ) / (nVar : ℝ) - (cCtrl : ℝ) / (nCtrl : ℝ)) 0
          with hb' | hb'pos
        · have hβ : (0 : ℝ) ≤
              -(((cVar + 1 : ℕ) : ℝ) / (nVar : ℝ) - (cCtrl : ℝ) / (nCtrl : ℝ)) := by
            linarith
          have hu0 : (0 : ℝ) ≤ ((nCtrl : ℝ) + (nVar : ℝ)) - ((cCtrl : ℝ) + (cVar : ℝ)) - 1 := by
            linarith
          have hq1 : (cCtrl : ℝ) / (nCtrl : ℝ) ≤ 1 := by
            rw [div_le_one (by linarith)]
            exact hccR
          have hβu : -(((cVar + 1 : ℕ) : ℝ) / (nVar : ℝ) - (cCtrl : ℝ) / (nCtrl : ℝ)) ≤
              (((nCtrl : ℝ) + (nVar : ℝ)) - ((cCtrl : ℝ) + (cVar : ℝ)) - 1) *
                (1 / (nVar : ℝ)) := by
            have h3 : 1 - ((cVar : ℝ) + 1) / (nVar : ℝ) =
                ((nVar : ℝ) - (cVar : ℝ) - 1) * (1 / (nVar : ℝ)) := by
              field_simp
              ring
            have h4 : ((nVar : ℝ) - (cVar : ℝ) - 1) * (1 / (nVar : ℝ)) ≤
                (((nCtrl : ℝ) + (nVar : ℝ)) - ((cCtrl : ℝ) + (cVar : ℝ)) - 1) *
                  (1 / (nVar : ℝ)) :=
              mul_le_mul_of_nonneg_right (by linarith) hδ.le
            push_cast
            linarith
          have hkey := zmono_key_neg hβ hδ
            (by positivity : (0 : ℝ) ≤ (cCtrl : ℝ) + (cVar : ℝ)) hu0 hβu
          have hβδ : -(((cVar + 1 : ℕ) : ℝ) / (nVar : ℝ) - (cCtrl : ℝ) / (nCtrl : ℝ)) +
              1 / (nVar : ℝ) =
              -((cVar : ℝ) / (nVar : ℝ) - (cCtrl : ℝ) / (nCtrl : ℝ)) := by
            rw [hb'eq]
            ring
          rw [hβδ] at hkey
          have hmain := div_sqrt_le hβ (by linarith :
              (0 : ℝ) ≤ -((cVar : ℝ) / (nVar : ℝ) - (cCtrl : ℝ) / (nCtrl : ℝ)))
            hypos hxpos ?_
          · rw [neg_div, neg_div] at hmain
            linarith
          · rw [e1, e2]
            calc (-(((cVar + 1 : ℕ) : ℝ) / (nVar : ℝ) - (cCtrl : ℝ) / (nCtrl : ℝ))) ^ 2 *
                  ((((cCtrl : ℝ) + (cVar : ℝ)) * (((nCtrl : ℝ) + (nVar : ℝ)) -
                    ((cCtrl : ℝ) + (cVar : ℝ)))) *
                    ((1 / (nCtrl : ℝ) + 1 / (nVar : ℝ)) / (((nCtrl : ℝ) + (nVar : ℝ)) ^ 2))) =
                ((-(((cVar + 1 : ℕ) : ℝ) / (nVar : ℝ) - (cCtrl : ℝ) / (nCtrl : ℝ))) ^ 2 *
                  (((cCtrl : ℝ) + (cVar : ℝ)) * ((((nCtrl : ℝ) + (nVar : ℝ)) -
                    ((cCtrl : ℝ) + (cVar : ℝ)) - 1) + 1))) *
                  ((1 / (nCtrl : ℝ) + 1 / (nVar : ℝ)) / (((nCtrl : ℝ) + (nVar : ℝ)) ^ 2)) := by
                  ring
              _ ≤ ((-((cVar : ℝ) / (nVar : ℝ) - (cCtrl : ℝ) / (nCtrl : ℝ))) ^ 2 *
                  ((((cCtrl : ℝ) + (cVar : ℝ)) + 1) * ((((nCtrl : ℝ) + (nVar : ℝ)) -
                    ((cCtrl : ℝ) + (cVar : ℝ)) - 1)))) *
                  ((1 / (nCtrl : ℝ) + 1 / (nVar : ℝ)) / (((nCtrl : ℝ) + (nVar : ℝ)) ^ 2)) :=
                  mul_le_mul_of_nonneg_right hkey hkN
              _ = (-((cVar : ℝ) / (nVar : ℝ) - (cCtrl : ℝ) / (nCtrl : ℝ))) ^ 2 *
                  ((((cCtrl : ℝ) + (cVar : ℝ) + 1) * (((nCtrl : ℝ) + (nVar : ℝ)) -
                    ((cCtrl : ℝ) + (cVar : ℝ)) - 1)) *
                    ((1 / (nCtrl : ℝ) + 1 / (nVar : ℝ)) / (((nCtrl : ℝ) + (nVar : ℝ)) ^ 2))) := by
                  ring
        · have hz1 : ((cVar : ℝ) / (nVar : ℝ) - (cCtrl : ℝ) / (nCtrl : ℝ)) /
              Real.sqrt (pooledProp cCtrl nCtrl cVar nVar *
                (1 - pooledProp cCtrl nCtrl cVar nVar) *
                (1 / (nCtrl : ℝ) + 1 / (nVar : ℝ))) < 0 :=
            div_neg_of_neg_of_pos hbneg (Real.sqrt_pos.mpr hxpos)
          have hz2 : 0 < (((cVar + 1 : ℕ) : ℝ) / (nVar : ℝ) - (cCtrl : ℝ) / (nCtrl : ℝ)) /
              Real.sqrt (pooledProp cCtrl nCtrl (cVar + 1) nVar *
                (1 - pooledProp cCtrl nCtrl (cVar + 1) nVar) *
                (1 / (nCtrl : ℝ) + 1 / (nVar : ℝ))) :=
            div_pos hb'pos (Real.sqrt_pos.mpr hypos)
          linarith
